import Mathlib

/-!
Verification of the morphop binary-image morphology engine.

The definitions below are a shallow embedding of `src/kernel.rs` and
`src/image.rs`: `u8`/`u32` become `Nat` (their values never overflow in the
embedded code paths), `i32` coordinate arithmetic becomes `Int`, the flat
RGBA byte buffer becomes a row-major `List Pixel` indexed by
`y * width + x` (each `Pixel` groups the four consecutive bytes exactly as
`get_pixel`/`set_pixel` do), `Result` becomes `Except` with explicit state
passing, and `f32` brightness arithmetic is modelled exactly by fixed-point
integer arithmetic implementing IEEE-754 binary32 round-to-nearest-even.  The `for` loops that write every pixel of
a cloned buffer are modelled by `Image.mapPixels`, and the per-cell loop
bodies of `get_min_or_max`/`match_kernel` are modelled by an explicit fold
(`Image.mmStep`) respectively a bounded universal over the same cell list.
-/

namespace Morphop

/-- `KernelVal` from `kernel.rs`: `One` is a Foreground cell, `Zero` a
Background cell, `DontCare` is skipped. -/
inductive KernelVal where
  | One
  | Zero
  | DontCare
deriving DecidableEq

/-- `Kernel` from `kernel.rs`: an odd-sized square ternary mask stored
row-major in a flat vector. -/
structure Kernel where
  dimension : Nat
  data : List KernelVal
deriving DecidableEq

/-- `Kernel::new`: dimension 1, single `One` cell. -/
def Kernel.new : Kernel :=
  { dimension := 1, data := [KernelVal.One] }

/-- `Kernel::get_dimension`. -/
def Kernel.get_dimension (k : Kernel) : Nat :=
  k.dimension

/-- `Kernel::get`: row-major lookup at `y * dimension + x`.  The Rust code
indexes the vector directly (a panic when out of range); the embedding
returns `DontCare` for an out-of-range index, which no embedded code path
reaches. -/
def Kernel.get (k : Kernel) (x y : Nat) : KernelVal :=
  k.data.getD (y * k.dimension + x) KernelVal.DontCare

/-- `Kernel::set`: row-major update at `y * dimension + x`. -/
def Kernel.set (k : Kernel) (x y : Nat) (val : KernelVal) : Kernel :=
  { k with data := k.data.set (y * k.dimension + x) val }

/-- `Kernel::change_dimension`: rejects even dimensions with an error and
leaves the kernel untouched (the Rust method returns early before any
mutation); otherwise installs a fresh all-`One` matrix.  The mutable `self`
is modelled by returning the resulting kernel next to the `Result`. -/
def Kernel.change_dimension (k : Kernel) (dimension : Nat) :
    Except String Unit × Kernel :=
  if dimension % 2 = 0 then
    (Except.error "Dimension must be odd.", k)
  else
    (Except.ok (),
      { dimension := dimension,
        data := List.replicate (dimension * dimension) KernelVal.One })

/-- `Pixel` from `image.rs`: four `u8` channels (R,G,B,A), here `Nat`.
`c0`..`c3` mirror the Rust tuple fields `.0`..`.3`. -/
structure Pixel where
  c0 : Nat
  c1 : Nat
  c2 : Nat
  c3 : Nat
deriving DecidableEq

/-- The `WHITE` constant. -/
def WHITE : Pixel := ⟨255, 255, 255, 255⟩

/-- The `BLACK` constant. -/
def BLACK : Pixel := ⟨0, 0, 0, 255⟩

/-- `Pixel::min`: componentwise minimum. -/
def Pixel.min (p other : Pixel) : Pixel :=
  ⟨Nat.min p.c0 other.c0, Nat.min p.c1 other.c1,
   Nat.min p.c2 other.c2, Nat.min p.c3 other.c3⟩

/-- `Pixel::max`: componentwise maximum. -/
def Pixel.max (p other : Pixel) : Pixel :=
  ⟨Nat.max p.c0 other.c0, Nat.max p.c1 other.c1,
   Nat.max p.c2 other.c2, Nat.max p.c3 other.c3⟩

/-- Componentwise order on pixels (the order under which `Pixel.min` and
`Pixel.max` are meet and join); used only in proofs. -/
def Pixel.le (p q : Pixel) : Prop :=
  p.c0 ≤ q.c0 ∧ p.c1 ≤ q.c1 ∧ p.c2 ≤ q.c2 ∧ p.c3 ≤ q.c3

instance : LE Pixel := ⟨Pixel.le⟩

instance (p q : Pixel) : Decidable (p ≤ q) := by
  change Decidable (Pixel.le p q)
  unfold Pixel.le
  infer_instance

/-- `Image` from `image.rs`: width, height and the row-major pixel buffer
(the Rust `Vec<u8>` of length `width*height*4`, with each group of four
bytes collected into one `Pixel`). -/
structure Image where
  data : List Pixel
  width : Nat
  height : Nat
deriving DecidableEq

/-- `Image::get_width`. -/
def Image.get_width (img : Image) : Nat := img.width

/-- `Image::get_height`. -/
def Image.get_height (img : Image) : Nat := img.height

/-- `Image::get_pixel`: reads the pixel at flat index `y * width + x`.  The
Rust code indexes the buffer directly; the embedding returns a zero pixel
for an out-of-range index, which no embedded code path reaches. -/
def Image.get_pixel (img : Image) (x y : Nat) : Pixel :=
  img.data.getD (y * img.width + x) ⟨0, 0, 0, 0⟩

/-- The `result = self.clone(); for y { for x { result.set_pixel(x, y, f x y) } }`
pattern shared by every transform in `image.rs`: every in-range position
`(x, y)` of the output is `f x y`, and width/height are preserved (under the
`buffer.length = width*height` raster invariant the cloned buffer is
overwritten completely). -/
def Image.mapPixels (img : Image) (f : Nat → Nat → Pixel) : Image :=
  { data := (List.range (img.height * img.width)).map
      (fun i => f (i % img.width) (i / img.width)),
    width := img.width,
    height := img.height }

/-- Number of halvings of `n` until it is 0 or 1 — the floor base-2
logarithm of `n` for `n ≥ 1` (the first argument is recursion fuel; 256 is
ample for every value arising below).  Used by the exact `f32` model. -/
def msbAux : Nat → Nat → Nat
  | 0, _ => 0
  | fuel + 1, n => if n ≤ 1 then 0 else msbAux fuel (n / 2) + 1

/-- Round-to-nearest-even of `n / d` (for `d > 0`): the quotient, bumped
when the remainder exceeds half of `d`, and to the even neighbor on an
exact tie.  This is the IEEE-754 default rounding. -/
def rnEvenDiv (n d : Nat) : Nat :=
  let q := n / d
  let r := n % d
  if 2 * r < d then q else if d < 2 * r then q + 1 else if q % 2 = 0 then q else q + 1

/-- Exact IEEE-754 binary32 (`f32`) rounding in the fixed-point
representation used for the luma computation: the argument is a
nonnegative value scaled by `2^32`, and the result is the nearest `f32`
(ties to even), also scaled by `2^32`.  For a value with floor base-2
logarithm `E`, the `f32` granule is `2^(E-23)`; in scaled units the
granule is `2^(e-23)` with `e = E + 32`, so values with `e ≤ 23` are
already exactly representable.  This is the exact `f32` rounding for every
value the luma computation produces (nonnegative, below `2^31`, scaled
form integral, normal range). -/
def roundF32 (v : Nat) : Nat :=
  if v = 0 then 0
  else
    let e := msbAux 256 v
    if e ≤ 23 then v
    else rnEvenDiv v (2 ^ (e - 23)) * 2 ^ (e - 23)

/-- The `f32` value of the positive decimal literal `a / b` (such as
`0.2126`), scaled by `2^32`: `e - 64` is the floor base-2 logarithm of
`a / b`, the 24-bit significand `m` is the round-to-nearest-even of
`(a / b) · 2^(23-(e-64))`, and the result is `m · 2^((e-64)-23)` rescaled
by `2^32`.  Exact for `2^-32 ≤ a / b < 2^23`, which covers the three luma
coefficients. -/
def litF32 (a b : Nat) : Nat :=
  if a = 0 then 0
  else
    let e := msbAux 256 (a * 2 ^ 64 / b)
    let m := rnEvenDiv (a * 2 ^ (87 - e)) b
    if 55 ≤ e then m * 2 ^ (e - 55) else m / 2 ^ (55 - e)

/-- The `f32` luma
`pixel.0 as f32 * 0.2126 + pixel.1 as f32 * 0.7152 + pixel.2 as f32 * 0.0722`
of `Image::binarize`, computed exactly in fixed-point scaled by `2^32`:
the decimal literals are rounded to `f32` (`litF32`), each product and
each left-to-right addition is rounded to `f32` (`roundF32`), and the
`u8` to `f32` conversions are exact.  Cross-checked value for value
against IEEE-754 binary32 evaluation of the Rust expression. -/
def luma (p : Pixel) : Nat :=
  roundF32 (roundF32 (roundF32 (p.c0 * litF32 2126 10000) +
    roundF32 (p.c1 * litF32 7152 10000)) +
    roundF32 (p.c2 * litF32 722 10000))

/-- `Image::binarize`: per pixel, the `f32` luma
`0.2126*R + 0.7152*G + 0.0722*B` compared against the threshold (the `u8`
to `f32` conversion of the threshold is exact); below it emit `BLACK`,
otherwise `WHITE`.  In the scaled representation the `f32` comparison
`brightness < threshold` is exactly `luma pixel < threshold * 2^32`. -/
def Image.binarize (img : Image) (threshold : Nat) : Image :=
  img.mapPixels (fun x y =>
    let pixel := img.get_pixel x y
    if luma pixel < threshold * 2 ^ 32 then BLACK else WHITE)

/-- The cell traversal order of the two nested kernel loops
(`for y in 0..kernel_dim { for x in 0..kernel_dim { ... } }`): pairs `(y, x)`. -/
def cellList (d : Nat) : List (Nat × Nat) :=
  (List.range d).flatMap (fun y => (List.range d).map (fun x => (y, x)))

/-- One iteration of the kernel loop body of `Image::get_min_or_max`,
acting on the `(min, max)` accumulator pair for cell `(y, x)`:
off-raster mapped coordinates fold the center pixel (before the kernel
value is consulted), in-bounds non-`One` cells are skipped, in-bounds
`One` cells fold the sampled neighbor pixel. -/
def Image.mmStep (img : Image) (row col kernel_center : Nat) (kernel : Kernel)
    (center : Pixel) (acc : Pixel × Pixel) (yx : Nat × Nat) : Pixel × Pixel :=
  let image_y : Int := ((col + yx.1 : Nat) : Int) - (kernel_center : Int)
  let image_x : Int := ((row + yx.2 : Nat) : Int) - (kernel_center : Int)
  if image_y < 0 ∨ (img.height : Int) ≤ image_y then
    (acc.1.min center, acc.2.max center)
  else if image_x < 0 ∨ (img.width : Int) ≤ image_x then
    (acc.1.min center, acc.2.max center)
  else
    let pixel := img.get_pixel image_x.toNat image_y.toNat
    if kernel.get yx.2 yx.1 ≠ KernelVal.One then acc
    else (acc.1.min pixel, acc.2.max pixel)

/-- `Image::get_min_or_max`: scan all kernel cells folding the
`(min, max)` pair seeded at `(WHITE, BLACK)`, then return the minimum for
erosion and the maximum for dilation. -/
def Image.get_min_or_max (img : Image) (row col : Nat) (kernel : Kernel)
    (erode : Bool) : Pixel :=
  let kernel_dim := kernel.get_dimension
  let kernel_center := (kernel_dim - 1) / 2
  let center := img.get_pixel row col
  let mm := (cellList kernel_dim).foldl
    (img.mmStep row col kernel_center kernel center) (WHITE, BLACK)
  if erode then mm.1 else mm.2

/-- `Image::dilate_or_erode`: apply the kernel scan at every pixel. -/
def Image.dilate_or_erode (img : Image) (kernel : Kernel) (erode : Bool) : Image :=
  img.mapPixels (fun x y => img.get_min_or_max x y kernel erode)

/-- `Image::dilate`. -/
def Image.dilate (img : Image) (kernel : Kernel) : Image :=
  img.dilate_or_erode kernel false

/-- `Image::erode`. -/
def Image.erode (img : Image) (kernel : Kernel) : Image :=
  img.dilate_or_erode kernel true

/-- `Image::open` (named `open'` because `open` is a Lean keyword): build a
fresh kernel, resize it to the dimension of the supplied kernel (`unwrap`
modelled by `Option`: `none` is the panic on an even dimension), then
erode and dilate with it. -/
def Image.open' (img : Image) (kernel : Kernel) : Option Image :=
  match Kernel.new.change_dimension kernel.get_dimension with
  | (Except.ok _, okernel) => some ((img.erode okernel).dilate okernel)
  | (Except.error _, _) => none

/-- `Image::close`: as `open'` but dilate then erode. -/
def Image.close (img : Image) (kernel : Kernel) : Option Image :=
  match Kernel.new.change_dimension kernel.get_dimension with
  | (Except.ok _, okernel) => some ((img.dilate okernel).erode okernel)
  | (Except.error _, _) => none

/-- The pixel sampled for kernel cell `(y, x)` at center `(row, col)`
(shared coordinate mapping of `get_min_or_max` and `match_kernel`): the
neighbor at `(row + x - center, col + y - center)` when that coordinate is
on the raster, and the center pixel itself otherwise. -/
def Image.samp (img : Image) (row col kernel_center : Nat) (yx : Nat × Nat) : Pixel :=
  let image_y : Int := ((col + yx.1 : Nat) : Int) - (kernel_center : Int)
  let image_x : Int := ((row + yx.2 : Nat) : Int) - (kernel_center : Int)
  if image_y < 0 ∨ (img.height : Int) ≤ image_y then
    img.get_pixel row col
  else if image_x < 0 ∨ (img.width : Int) ≤ image_x then
    img.get_pixel row col
  else
    img.get_pixel image_x.toNat image_y.toNat

/-- The requirement one kernel cell imposes in `Image::match_kernel`
(failing it causes the early `return BLACK`): a `Zero` cell needs the
sampled pixel to equal `BLACK`, a `One` cell needs it to equal `WHITE`, a
`DontCare` cell imposes nothing. -/
def Image.cellReq (img : Image) (row col kernel_center : Nat) (kernel : Kernel)
    (yx : Nat × Nat) : Prop :=
  (kernel.get yx.2 yx.1 = KernelVal.Zero →
    img.samp row col kernel_center yx = BLACK) ∧
  (kernel.get yx.2 yx.1 = KernelVal.One →
    img.samp row col kernel_center yx = WHITE)

instance (img : Image) (row col kernel_center : Nat) (kernel : Kernel)
    (yx : Nat × Nat) :
    Decidable (Image.cellReq img row col kernel_center kernel yx) := by
  unfold Image.cellReq
  infer_instance

/-- `Image::match_kernel`: `WHITE` when the requirement of every kernel cell
holds, `BLACK` as soon as one fails (the early-return loop is modelled by
the bounded universal over the same cell list). -/
def Image.match_kernel (img : Image) (row col : Nat) (kernel : Kernel) : Pixel :=
  let kernel_dim := kernel.get_dimension
  let kernel_center := (kernel_dim - 1) / 2
  if ∀ yx ∈ cellList kernel_dim, img.cellReq row col kernel_center kernel yx then
    WHITE
  else BLACK

/-- `Image::hit_or_miss`: `match_kernel` at every pixel. -/
def Image.hit_or_miss (img : Image) (kernel : Kernel) : Image :=
  img.mapPixels (fun x y => img.match_kernel x y kernel)

/-- `Image::thinning`: force `BLACK` where `match_kernel` reports `WHITE`,
copy the original pixel elsewhere. -/
def Image.thinning (img : Image) (kernel : Kernel) : Image :=
  img.mapPixels (fun x y =>
    if img.match_kernel x y kernel = WHITE then BLACK else img.get_pixel x y)

/-- `Image::thickening`: force `WHITE` where `match_kernel` reports
`WHITE`, copy the original pixel elsewhere. -/
def Image.thickening (img : Image) (kernel : Kernel) : Image :=
  img.mapPixels (fun x y =>
    if img.match_kernel x y kernel = WHITE then WHITE else img.get_pixel x y)

/-- The fullKernel of the spec: a freshly constructed all-Foreground kernel of
dimension `d`; for odd `d` this is exactly the kernel
`Kernel.new.change_dimension d` produces. -/
def fullKernel (d : Nat) : Kernel :=
  { dimension := d, data := List.replicate (d * d) KernelVal.One }

/-- A raster all of whose (in-range) pixels are exactly `BLACK` or `WHITE`. -/
def Image.Binary (img : Image) : Prop :=
  ∀ x, x < img.width → ∀ y, y < img.height →
    img.get_pixel x y = BLACK ∨ img.get_pixel x y = WHITE

instance (img : Image) : Decidable img.Binary := by
  unfold Image.Binary
  infer_instance

/-- The min-half of `Image.mmStep`; used only in proofs. -/
def stepMin (img : Image) (row col kernel_center : Nat) (kernel : Kernel)
    (center : Pixel) (a : Pixel) (yx : Nat × Nat) : Pixel :=
  let image_y : Int := ((col + yx.1 : Nat) : Int) - (kernel_center : Int)
  let image_x : Int := ((row + yx.2 : Nat) : Int) - (kernel_center : Int)
  if image_y < 0 ∨ (img.height : Int) ≤ image_y then a.min center
  else if image_x < 0 ∨ (img.width : Int) ≤ image_x then a.min center
  else
    let pixel := img.get_pixel image_x.toNat image_y.toNat
    if kernel.get yx.2 yx.1 ≠ KernelVal.One then a
    else a.min pixel

/-- The max-half of `Image.mmStep`; used only in proofs. -/
def stepMax (img : Image) (row col kernel_center : Nat) (kernel : Kernel)
    (center : Pixel) (b : Pixel) (yx : Nat × Nat) : Pixel :=
  let image_y : Int := ((col + yx.1 : Nat) : Int) - (kernel_center : Int)
  let image_x : Int := ((row + yx.2 : Nat) : Int) - (kernel_center : Int)
  if image_y < 0 ∨ (img.height : Int) ≤ image_y then b.max center
  else if image_x < 0 ∨ (img.width : Int) ≤ image_x then b.max center
  else
    let pixel := img.get_pixel image_x.toNat image_y.toNat
    if kernel.get yx.2 yx.1 ≠ KernelVal.One then b
    else b.max pixel

theorem Image.width_mapPixels (img : Image) (f : Nat → Nat → Pixel) :
    (img.mapPixels f).width = img.width := rfl

theorem Image.height_mapPixels (img : Image) (f : Nat → Nat → Pixel) :
    (img.mapPixels f).height = img.height := rfl

theorem Image.get_mapPixels (img : Image) (f : Nat → Nat → Pixel) {x y : Nat}
    (hx : x < img.width) (hy : y < img.height) :
    (img.mapPixels f).get_pixel x y = f x y := by
  have hw : 0 < img.width := Nat.lt_of_le_of_lt (Nat.zero_le x) hx
  have hi : y * img.width + x < img.height * img.width := by
    have h1 : y * img.width + x < (y + 1) * img.width := by
      simpa [Nat.succ_mul] using Nat.add_lt_add_left hx (y * img.width)
    exact Nat.lt_of_lt_of_le h1 (Nat.mul_le_mul_right _ hy)
  have e1 : (y * img.width + x) % img.width = x := by
    rw [Nat.mul_comm y img.width, Nat.mul_add_mod]
    exact Nat.mod_eq_of_lt hx
  have e2 : (y * img.width + x) / img.width = y := by
    rw [Nat.mul_comm y img.width, Nat.mul_add_div hw, Nat.div_eq_of_lt hx]
    rfl
  unfold Image.mapPixels Image.get_pixel
  simp only [List.getD_eq_getElem?_getD, List.getElem?_map]
  rw [List.getElem?_range hi]
  simp [e1, e2]

/-- C8: `change_dimension` with an even argument fails with the invalid
argument error and leaves the kernel (dimension and all cells) exactly as
it was; with an odd argument it succeeds and installs a fresh
all-Foreground matrix of the new size. -/
theorem C8_change_dimension_even_fails_odd_resets (k : Kernel) (d : Nat) :
    (d % 2 = 0 → k.change_dimension d = (Except.error "Dimension must be odd.", k)) ∧
    (d % 2 = 1 → k.change_dimension d =
      (Except.ok (), { dimension := d, data := List.replicate (d * d) KernelVal.One })) := by
  constructor
  · intro h
    unfold Kernel.change_dimension
    rw [if_pos h]
  · intro h
    unfold Kernel.change_dimension
    rw [if_neg (by omega)]

theorem C8_change_dimension_even_fails_odd_resets_witness :
    (2 % 2 = 0 ∧ Kernel.new.change_dimension 2 =
      (Except.error "Dimension must be odd.", Kernel.new)) ∧
    (3 % 2 = 1 ∧ Kernel.new.change_dimension 3 =
      (Except.ok (), { dimension := 3, data := List.replicate 9 KernelVal.One })) :=
  ⟨⟨by decide, (C8_change_dimension_even_fails_odd_resets Kernel.new 2).1 (by decide)⟩,
   ⟨by decide, (C8_change_dimension_even_fails_odd_resets Kernel.new 3).2 (by decide)⟩⟩

/-- C2: in the dilate/erode kernel scan, a Foreground cell whose mapped
image coordinate `(row + x - center, col + y - center)` is off the raster
(negative or beyond width/height) folds the center pixel at `(row, col)`
into the running extremum pair, and a Foreground cell whose mapped
coordinate is on the raster folds the actual neighbor pixel at that
coordinate (bounds written in `Nat` arithmetic: the mapped coordinate
`col + y - center` is negative iff `col + y < center` and `≥ height` iff
`height + center ≤ col + y`, and likewise for the x coordinate). -/
theorem C2_foreground_cell_folds_center_or_neighbor (img : Image) (k : Kernel)
    (row col : Nat) (acc : Pixel × Pixel) (yx : Nat × Nat)
    (hfg : k.get yx.2 yx.1 = KernelVal.One) :
    ((col + yx.1 < (k.get_dimension - 1) / 2 ∨
        img.height + (k.get_dimension - 1) / 2 ≤ col + yx.1 ∨
        row + yx.2 < (k.get_dimension - 1) / 2 ∨
        img.width + (k.get_dimension - 1) / 2 ≤ row + yx.2) →
      img.mmStep row col ((k.get_dimension - 1) / 2) k (img.get_pixel row col) acc yx =
        (acc.1.min (img.get_pixel row col), acc.2.max (img.get_pixel row col))) ∧
    ((k.get_dimension - 1) / 2 ≤ col + yx.1 →
      col + yx.1 < img.height + (k.get_dimension - 1) / 2 →
      (k.get_dimension - 1) / 2 ≤ row + yx.2 →
      row + yx.2 < img.width + (k.get_dimension - 1) / 2 →
      img.mmStep row col ((k.get_dimension - 1) / 2) k (img.get_pixel row col) acc yx =
        (acc.1.min (img.get_pixel (row + yx.2 - (k.get_dimension - 1) / 2)
            (col + yx.1 - (k.get_dimension - 1) / 2)),
         acc.2.max (img.get_pixel (row + yx.2 - (k.get_dimension - 1) / 2)
            (col + yx.1 - (k.get_dimension - 1) / 2)))) := by
  constructor
  · intro h
    by_cases hy : col + yx.1 < (k.get_dimension - 1) / 2 ∨
        img.height + (k.get_dimension - 1) / 2 ≤ col + yx.1
    · have hy' : ((col + yx.1 : Nat) : Int) - (((k.get_dimension - 1) / 2 : Nat) : Int) < 0 ∨
          (img.height : Int) ≤ ((col + yx.1 : Nat) : Int) - (((k.get_dimension - 1) / 2 : Nat) : Int) := by
        omega
      unfold Image.mmStep
      rw [if_pos hy']
    · have hx : row + yx.2 < (k.get_dimension - 1) / 2 ∨
          img.width + (k.get_dimension - 1) / 2 ≤ row + yx.2 := by
        rcases h with h | h | h | h
        · exact absurd (Or.inl h) hy
        · exact absurd (Or.inr h) hy
        · exact Or.inl h
        · exact Or.inr h
      have hy' : ¬(((col + yx.1 : Nat) : Int) - (((k.get_dimension - 1) / 2 : Nat) : Int) < 0 ∨
          (img.height : Int) ≤ ((col + yx.1 : Nat) : Int) - (((k.get_dimension - 1) / 2 : Nat) : Int)) := by
        omega
      have hx' : ((row + yx.2 : Nat) : Int) - (((k.get_dimension - 1) / 2 : Nat) : Int) < 0 ∨
          (img.width : Int) ≤ ((row + yx.2 : Nat) : Int) - (((k.get_dimension - 1) / 2 : Nat) : Int) := by
        omega
      unfold Image.mmStep
      rw [if_neg hy', if_pos hx']
  · intro h1 h2 h3 h4
    have hy' : ¬(((col + yx.1 : Nat) : Int) - (((k.get_dimension - 1) / 2 : Nat) : Int) < 0 ∨
        (img.height : Int) ≤ ((col + yx.1 : Nat) : Int) - (((k.get_dimension - 1) / 2 : Nat) : Int)) := by
      omega
    have hx' : ¬(((row + yx.2 : Nat) : Int) - (((k.get_dimension - 1) / 2 : Nat) : Int) < 0 ∨
        (img.width : Int) ≤ ((row + yx.2 : Nat) : Int) - (((k.get_dimension - 1) / 2 : Nat) : Int)) := by
      omega
    have ex : ((((row + yx.2 : Nat) : Int) - (((k.get_dimension - 1) / 2 : Nat) : Int)).toNat) =
        row + yx.2 - (k.get_dimension - 1) / 2 := by
      omega
    have ey : ((((col + yx.1 : Nat) : Int) - (((k.get_dimension - 1) / 2 : Nat) : Int)).toNat) =
        col + yx.1 - (k.get_dimension - 1) / 2 := by
      omega
    simp only [Image.mmStep]
    rw [if_neg hy', if_neg hx']
    rw [if_neg (show ¬(k.get yx.2 yx.1 ≠ KernelVal.One) by simp [hfg])]
    rw [ex, ey]

theorem C2_foreground_cell_folds_center_or_neighbor_witness :
    ((fullKernel 3).get 0 0 = KernelVal.One ∧
      Image.mmStep ⟨[WHITE], 1, 1⟩ 0 0 (((fullKernel 3).get_dimension - 1) / 2) (fullKernel 3)
          (Image.get_pixel ⟨[WHITE], 1, 1⟩ 0 0) (WHITE, BLACK) (0, 0) =
        (Pixel.min WHITE (Image.get_pixel ⟨[WHITE], 1, 1⟩ 0 0),
         Pixel.max BLACK (Image.get_pixel ⟨[WHITE], 1, 1⟩ 0 0))) ∧
    ((fullKernel 3).get 1 1 = KernelVal.One ∧
      Image.mmStep ⟨[WHITE], 1, 1⟩ 0 0 (((fullKernel 3).get_dimension - 1) / 2) (fullKernel 3)
          (Image.get_pixel ⟨[WHITE], 1, 1⟩ 0 0) (WHITE, BLACK) (1, 1) =
        (Pixel.min WHITE (Image.get_pixel ⟨[WHITE], 1, 1⟩ 0 0),
         Pixel.max BLACK (Image.get_pixel ⟨[WHITE], 1, 1⟩ 0 0))) := by
  constructor
  · refine ⟨by decide, ?_⟩
    exact (C2_foreground_cell_folds_center_or_neighbor ⟨[WHITE], 1, 1⟩ (fullKernel 3)
      0 0 (WHITE, BLACK) (0, 0) (by decide)).1 (by decide)
  · refine ⟨by decide, ?_⟩
    have h := (C2_foreground_cell_folds_center_or_neighbor ⟨[WHITE], 1, 1⟩ (fullKernel 3)
      0 0 (WHITE, BLACK) (1, 1) (by decide)).2 (by decide) (by decide) (by decide) (by decide)
    simpa using h

/-- C4: for a kernel of odd dimension, `open` is
`dilate(erode(r, fullKernel), fullKernel)` and `close` is
`erode(dilate(r, fullKernel), fullKernel)` with `fullKernel` the freshly
constructed all-Foreground kernel of the dimension of the supplied kernel;
kernels of equal dimension (whatever their cells) give identical `open`
and `close` results. -/
theorem C4_open_close_use_full_kernel (img : Image) (k : Kernel)
    (hodd : k.dimension % 2 = 1) :
    img.open' k =
      some ((img.erode (fullKernel k.get_dimension)).dilate (fullKernel k.get_dimension)) ∧
    img.close k =
      some ((img.dilate (fullKernel k.get_dimension)).erode (fullKernel k.get_dimension)) ∧
    (∀ k' : Kernel, k'.dimension = k.dimension →
      img.open' k' = img.open' k ∧ img.close k' = img.close k) := by
  have hne : ¬(k.dimension % 2 = 0) := by omega
  refine ⟨?_, ?_, ?_⟩
  · unfold Image.open' Kernel.change_dimension
    simp [Kernel.get_dimension, hne, fullKernel]
  · unfold Image.close Kernel.change_dimension
    simp [Kernel.get_dimension, hne, fullKernel]
  · intro k' hk'
    constructor
    · unfold Image.open'
      rw [show k'.get_dimension = k.get_dimension from hk']
    · unfold Image.close
      rw [show k'.get_dimension = k.get_dimension from hk']

theorem C4_open_close_use_full_kernel_witness :
    Kernel.new.dimension % 2 = 1 ∧
    (⟨[BLACK], 1, 1⟩ : Image).open' Kernel.new =
      some (((⟨[BLACK], 1, 1⟩ : Image).erode (fullKernel Kernel.new.get_dimension)).dilate
        (fullKernel Kernel.new.get_dimension)) :=
  ⟨by decide,
   (C4_open_close_use_full_kernel ⟨[BLACK], 1, 1⟩ Kernel.new (by decide)).1⟩

/-- C7: at every pixel, `thinning` yields `BLACK` where `match_kernel`
reports a match (`WHITE`) and the original pixel elsewhere; `thickening`
yields `WHITE` where `match_kernel` matches and the original pixel
elsewhere; hence `thinning` never turns a `BLACK` pixel `WHITE` and
`thickening` never turns a `WHITE` pixel `BLACK`. -/
theorem C7_thinning_thickening_pointwise (r : Image) (k : Kernel) (x y : Nat)
    (hx : x < r.width) (hy : y < r.height) :
    (r.thinning k).get_pixel x y =
      (if r.match_kernel x y k = WHITE then BLACK else r.get_pixel x y) ∧
    (r.thickening k).get_pixel x y =
      (if r.match_kernel x y k = WHITE then WHITE else r.get_pixel x y) ∧
    (r.get_pixel x y = BLACK → (r.thinning k).get_pixel x y ≠ WHITE) ∧
    (r.get_pixel x y = WHITE → (r.thickening k).get_pixel x y ≠ BLACK) := by
  have h1 : (r.thinning k).get_pixel x y =
      (if r.match_kernel x y k = WHITE then BLACK else r.get_pixel x y) :=
    Image.get_mapPixels r _ hx hy
  have h2 : (r.thickening k).get_pixel x y =
      (if r.match_kernel x y k = WHITE then WHITE else r.get_pixel x y) :=
    Image.get_mapPixels r _ hx hy
  refine ⟨h1, h2, ?_, ?_⟩
  · intro hb
    rw [h1]
    split
    · decide
    · rw [hb]
      decide
  · intro hw
    rw [h2]
    split
    · decide
    · rw [hw]
      decide

theorem C7_thinning_thickening_pointwise_witness :
    (0 : Nat) < (⟨[BLACK], 1, 1⟩ : Image).width ∧
    (0 : Nat) < (⟨[BLACK], 1, 1⟩ : Image).height ∧
    ((⟨[BLACK], 1, 1⟩ : Image).thinning Kernel.new).get_pixel 0 0 =
      (if (⟨[BLACK], 1, 1⟩ : Image).match_kernel 0 0 Kernel.new = WHITE then BLACK
       else (⟨[BLACK], 1, 1⟩ : Image).get_pixel 0 0) :=
  ⟨by decide, by decide,
   (C7_thinning_thickening_pointwise ⟨[BLACK], 1, 1⟩ Kernel.new 0 0
      (by decide) (by decide)).1⟩

theorem Pixel.le_refl (p : Pixel) : p ≤ p :=
  ⟨Nat.le_refl _, Nat.le_refl _, Nat.le_refl _, Nat.le_refl _⟩

theorem Pixel.le_trans {p q r : Pixel} (h1 : p ≤ q) (h2 : q ≤ r) : p ≤ r :=
  ⟨Nat.le_trans h1.1 h2.1, Nat.le_trans h1.2.1 h2.2.1,
   Nat.le_trans h1.2.2.1 h2.2.2.1, Nat.le_trans h1.2.2.2 h2.2.2.2⟩

theorem Pixel.le_antisymm {p q : Pixel} (h1 : p ≤ q) (h2 : q ≤ p) : p = q := by
  cases p
  cases q
  rw [Pixel.mk.injEq]
  obtain ⟨a1, b1, c1, d1⟩ := h1
  obtain ⟨a2, b2, c2, d2⟩ := h2
  exact ⟨Nat.le_antisymm a1 a2, Nat.le_antisymm b1 b2,
         Nat.le_antisymm c1 c2, Nat.le_antisymm d1 d2⟩

theorem Pixel.min_le_left (p q : Pixel) : p.min q ≤ p :=
  ⟨Nat.min_le_left _ _, Nat.min_le_left _ _, Nat.min_le_left _ _, Nat.min_le_left _ _⟩

theorem Pixel.min_le_right (p q : Pixel) : p.min q ≤ q :=
  ⟨Nat.min_le_right _ _, Nat.min_le_right _ _, Nat.min_le_right _ _, Nat.min_le_right _ _⟩

theorem Pixel.le_min {p q r : Pixel} (h1 : r ≤ p) (h2 : r ≤ q) : r ≤ p.min q :=
  ⟨Nat.le_min.mpr ⟨h1.1, h2.1⟩, Nat.le_min.mpr ⟨h1.2.1, h2.2.1⟩,
   Nat.le_min.mpr ⟨h1.2.2.1, h2.2.2.1⟩, Nat.le_min.mpr ⟨h1.2.2.2, h2.2.2.2⟩⟩

theorem Pixel.le_max_left (p q : Pixel) : p ≤ p.max q :=
  ⟨Nat.le_max_left _ _, Nat.le_max_left _ _, Nat.le_max_left _ _, Nat.le_max_left _ _⟩

theorem Pixel.le_max_right (p q : Pixel) : q ≤ p.max q :=
  ⟨Nat.le_max_right _ _, Nat.le_max_right _ _, Nat.le_max_right _ _, Nat.le_max_right _ _⟩

theorem Pixel.max_le {p q r : Pixel} (h1 : p ≤ r) (h2 : q ≤ r) : p.max q ≤ r :=
  ⟨Nat.max_le.mpr ⟨h1.1, h2.1⟩, Nat.max_le.mpr ⟨h1.2.1, h2.2.1⟩,
   Nat.max_le.mpr ⟨h1.2.2.1, h2.2.2.1⟩, Nat.max_le.mpr ⟨h1.2.2.2, h2.2.2.2⟩⟩

theorem white_min {p : Pixel} (h0 : p.c0 ≤ 255) (h1 : p.c1 ≤ 255)
    (h2 : p.c2 ≤ 255) (h3 : p.c3 ≤ 255) : Pixel.min WHITE p = p := by
  cases p
  rw [WHITE, Pixel.min, Pixel.mk.injEq]
  refine ⟨?_, ?_, ?_, ?_⟩ <;> simp_all

theorem black_max {p : Pixel} (h3 : p.c3 = 255) : Pixel.max BLACK p = p := by
  cases p
  rw [BLACK, Pixel.max, Pixel.mk.injEq]
  refine ⟨?_, ?_, ?_, ?_⟩ <;> simp_all

theorem foldl_min_le_seed {ι : Type} (s : ι → Pixel) (l : List ι) (a : Pixel) :
    l.foldl (fun b c => b.min (s c)) a ≤ a := by
  induction l generalizing a with
  | nil => exact Pixel.le_refl a
  | cons c l ih => exact Pixel.le_trans (ih (a.min (s c))) (Pixel.min_le_left _ _)

theorem foldl_min_le_mem {ι : Type} (s : ι → Pixel) (l : List ι) (a : Pixel)
    {c : ι} (hc : c ∈ l) : l.foldl (fun b c => b.min (s c)) a ≤ s c := by
  induction l generalizing a with
  | nil => cases hc
  | cons d l ih =>
    rcases List.mem_cons.mp hc with h | h
    · subst h
      exact Pixel.le_trans (foldl_min_le_seed s l (a.min (s c))) (Pixel.min_le_right _ _)
    · exact ih (a.min (s d)) h

theorem le_foldl_min {ι : Type} (s : ι → Pixel) (l : List ι) (a v : Pixel)
    (ha : v ≤ a) (hl : ∀ c ∈ l, v ≤ s c) : v ≤ l.foldl (fun b c => b.min (s c)) a := by
  induction l generalizing a with
  | nil => exact ha
  | cons d l ih =>
    exact ih _ (Pixel.le_min ha (hl d (List.mem_cons_self d l)))
      (fun c hc => hl c (List.mem_cons_of_mem d hc))

theorem foldl_max_ge_seed {ι : Type} (s : ι → Pixel) (l : List ι) (b : Pixel) :
    b ≤ l.foldl (fun a c => a.max (s c)) b := by
  induction l generalizing b with
  | nil => exact Pixel.le_refl b
  | cons c l ih => exact Pixel.le_trans (Pixel.le_max_left _ _) (ih (b.max (s c)))

theorem foldl_max_ge_mem {ι : Type} (s : ι → Pixel) (l : List ι) (b : Pixel)
    {c : ι} (hc : c ∈ l) : s c ≤ l.foldl (fun a c => a.max (s c)) b := by
  induction l generalizing b with
  | nil => cases hc
  | cons d l ih =>
    rcases List.mem_cons.mp hc with h | h
    · subst h
      exact Pixel.le_trans (Pixel.le_max_right _ _) (foldl_max_ge_seed s l (b.max (s c)))
    · exact ih (b.max (s d)) h

theorem foldl_max_le {ι : Type} (s : ι → Pixel) (l : List ι) (b v : Pixel)
    (hb : b ≤ v) (hl : ∀ c ∈ l, s c ≤ v) : l.foldl (fun a c => a.max (s c)) b ≤ v := by
  induction l generalizing b with
  | nil => exact hb
  | cons d l ih =>
    exact ih _ (Pixel.max_le hb (hl d (List.mem_cons_self d l)))
      (fun c hc => hl c (List.mem_cons_of_mem d hc))

theorem mem_cellList {d : Nat} {yx : Nat × Nat} :
    yx ∈ cellList d ↔ yx.1 < d ∧ yx.2 < d := by
  unfold cellList
  constructor
  · intro h
    obtain ⟨y, hy, hm⟩ := List.mem_flatMap.mp h
    obtain ⟨x, hx, he⟩ := List.mem_map.mp hm
    subst he
    exact ⟨List.mem_range.mp hy, List.mem_range.mp hx⟩
  · rintro ⟨h1, h2⟩
    refine List.mem_flatMap.mpr ⟨yx.1, List.mem_range.mpr h1, ?_⟩
    exact List.mem_map.mpr ⟨yx.2, List.mem_range.mpr h2, rfl⟩

theorem mmStep_eq (img : Image) (row col c : Nat) (k : Kernel) (center : Pixel)
    (a b : Pixel) (yx : Nat × Nat) :
    img.mmStep row col c k center (a, b) yx =
      (stepMin img row col c k center a yx, stepMax img row col c k center b yx) := by
  simp only [Image.mmStep, stepMin, stepMax]
  split
  · rfl
  · split
    · rfl
    · split <;> rfl

theorem foldl_mmStep (img : Image) (row col c : Nat) (k : Kernel) (center : Pixel)
    (l : List (Nat × Nat)) (a b : Pixel) :
    l.foldl (img.mmStep row col c k center) (a, b) =
      (l.foldl (stepMin img row col c k center) a,
       l.foldl (stepMax img row col c k center) b) := by
  induction l generalizing a b with
  | nil => rfl
  | cons yx l ih =>
    rw [List.foldl_cons, List.foldl_cons, List.foldl_cons, mmStep_eq]
    exact ih _ _

theorem gmm_erode_eq (img : Image) (row col : Nat) (k : Kernel) :
    img.get_min_or_max row col k true =
      (cellList k.get_dimension).foldl
        (stepMin img row col ((k.get_dimension - 1) / 2) k (img.get_pixel row col))
        WHITE := by
  simp only [Image.get_min_or_max, foldl_mmStep]
  rfl

theorem gmm_dilate_eq (img : Image) (row col : Nat) (k : Kernel) :
    img.get_min_or_max row col k false =
      (cellList k.get_dimension).foldl
        (stepMax img row col ((k.get_dimension - 1) / 2) k (img.get_pixel row col))
        BLACK := by
  simp only [Image.get_min_or_max, foldl_mmStep]
  rfl

theorem foldl_fixed {α β : Type} (f : α → β → α) (l : List β) (a : α)
    (h : ∀ b ∈ l, f a b = a) : l.foldl f a = a := by
  induction l with
  | nil => rfl
  | cons c l ih =>
    rw [List.foldl_cons, h c (List.mem_cons_self c l)]
    exact ih (fun b hb => h b (List.mem_cons_of_mem c hb))

theorem mapPixels_eq_self (img : Image) (f : Nat → Nat → Pixel)
    (hlen : img.data.length = img.height * img.width)
    (hf : ∀ x y, x < img.width → y < img.height → f x y = img.get_pixel x y) :
    img.mapPixels f = img := by
  obtain ⟨data, w, h⟩ := img
  simp only [Image.mapPixels] at *
  congr 1
  apply List.ext_getElem
  · simpa using hlen.symm
  · intro i h1 h2
    simp only [List.length_map, List.length_range] at h1
    have hw : 0 < w := by
      rcases Nat.eq_zero_or_pos w with h0 | h0
      · subst h0
        simp at h1
      · exact h0
    have hx : i % w < w := Nat.mod_lt _ hw
    have hy : i / w < h := (Nat.div_lt_iff_lt_mul hw).mpr h1
    rw [List.getElem_map, List.getElem_range]
    rw [hf _ _ hx hy]
    unfold Image.get_pixel
    simp only
    rw [List.getD_eq_getElem?_getD]
    rw [show i / w * w + i % w = i from by rw [Nat.mul_comm]; exact Nat.div_add_mod i w]
    rw [List.getElem?_eq_getElem h2]
    rfl

/-- C1 counterexample: with a 3×3 kernel having zero Foreground cells
(all `DontCare`), dilating a 1×1 all-WHITE raster yields WHITE at pixel
(0,0), not BLACK — off-raster positions fold the center pixel before the
kernel value is consulted, so inactive cells do contribute there. -/
theorem C1_counterexample :
    (∀ x, x < 3 → ∀ y, y < 3 →
      (⟨3, List.replicate 9 KernelVal.DontCare⟩ : Kernel).get x y ≠ KernelVal.One) ∧
    (Image.dilate ⟨[WHITE], 1, 1⟩
        ⟨3, List.replicate 9 KernelVal.DontCare⟩).get_pixel 0 0 ≠ BLACK := by
  exact ⟨by decide, by decide⟩

/-- C1 (amended): a Background or DontCare kernel cell whose mapped image
coordinate is on the raster contributes nothing to the extremum scan (the
fold step leaves the accumulator unchanged); and for a kernel with zero
Foreground cells, dilate yields BLACK and erode yields WHITE (the fold
seeds) at every pixel whose entire kernel window is on the raster. -/
theorem C1_inactive_cells_contribute_nothing_in_bounds :
    (∀ (img : Image) (row col c : Nat) (k : Kernel) (center : Pixel)
        (acc : Pixel × Pixel) (yx : Nat × Nat),
      c ≤ col + yx.1 → col + yx.1 < img.height + c →
      c ≤ row + yx.2 → row + yx.2 < img.width + c →
      k.get yx.2 yx.1 ≠ KernelVal.One →
      img.mmStep row col c k center acc yx = acc) ∧
    (∀ (img : Image) (k : Kernel) (row col : Nat),
      (∀ x, x < k.get_dimension → ∀ y, y < k.get_dimension →
        k.get x y ≠ KernelVal.One) →
      (∀ y, y < k.get_dimension →
        (k.get_dimension - 1) / 2 ≤ col + y ∧
        col + y < img.height + (k.get_dimension - 1) / 2) →
      (∀ x, x < k.get_dimension →
        (k.get_dimension - 1) / 2 ≤ row + x ∧
        row + x < img.width + (k.get_dimension - 1) / 2) →
      img.get_min_or_max row col k false = BLACK ∧
      img.get_min_or_max row col k true = WHITE) := by
  have step : ∀ (img : Image) (row col c : Nat) (k : Kernel) (center : Pixel)
      (acc : Pixel × Pixel) (yx : Nat × Nat),
      c ≤ col + yx.1 → col + yx.1 < img.height + c →
      c ≤ row + yx.2 → row + yx.2 < img.width + c →
      k.get yx.2 yx.1 ≠ KernelVal.One →
      img.mmStep row col c k center acc yx = acc := by
    intro img row col c k center acc yx h1 h2 h3 h4 h5
    have hy' : ¬(((col + yx.1 : Nat) : Int) - ((c : Nat) : Int) < 0 ∨
        (img.height : Int) ≤ ((col + yx.1 : Nat) : Int) - ((c : Nat) : Int)) := by
      omega
    have hx' : ¬(((row + yx.2 : Nat) : Int) - ((c : Nat) : Int) < 0 ∨
        (img.width : Int) ≤ ((row + yx.2 : Nat) : Int) - ((c : Nat) : Int)) := by
      omega
    simp only [Image.mmStep]
    rw [if_neg hy', if_neg hx', if_pos h5]
  refine ⟨step, ?_⟩
  intro img k row col hk hcol hrow
  have hfold : (cellList k.get_dimension).foldl
      (img.mmStep row col ((k.get_dimension - 1) / 2) k (img.get_pixel row col))
      (WHITE, BLACK) = (WHITE, BLACK) := by
    apply foldl_fixed
    intro yx hyx
    obtain ⟨hy, hx⟩ := mem_cellList.mp hyx
    exact step img row col _ k _ _ yx (hcol yx.1 hy).1 (hcol yx.1 hy).2
      (hrow yx.2 hx).1 (hrow yx.2 hx).2 (hk yx.2 hx yx.1 hy)
  constructor
  · simp only [Image.get_min_or_max, hfold]
    rfl
  · simp only [Image.get_min_or_max, hfold]
    rfl

theorem C1_inactive_cells_contribute_nothing_in_bounds_witness :
    ((⟨3, List.replicate 9 KernelVal.Zero⟩ : Kernel).get 0 0 ≠ KernelVal.One ∧
      Image.mmStep ⟨List.replicate 9 WHITE, 3, 3⟩ 1 1 1
        ⟨3, List.replicate 9 KernelVal.Zero⟩ BLACK (WHITE, BLACK) (0, 0) =
        (WHITE, BLACK)) ∧
    (Image.get_min_or_max ⟨List.replicate 9 WHITE, 3, 3⟩ 1 1
        ⟨3, List.replicate 9 KernelVal.Zero⟩ false = BLACK ∧
      Image.get_min_or_max ⟨List.replicate 9 WHITE, 3, 3⟩ 1 1
        ⟨3, List.replicate 9 KernelVal.Zero⟩ true = WHITE) := by
  constructor
  · refine ⟨by decide, ?_⟩
    exact C1_inactive_cells_contribute_nothing_in_bounds.1
      ⟨List.replicate 9 WHITE, 3, 3⟩ 1 1 1 ⟨3, List.replicate 9 KernelVal.Zero⟩
      BLACK (WHITE, BLACK) (0, 0) (by decide) (by decide) (by decide) (by decide)
      (by decide)
  · exact C1_inactive_cells_contribute_nothing_in_bounds.2
      ⟨List.replicate 9 WHITE, 3, 3⟩ ⟨3, List.replicate 9 KernelVal.Zero⟩ 1 1
      (by decide) (by decide) (by decide)

/-- C9 counterexample: dilating a 1×1 raster whose single pixel has alpha
0 with the default 1×1 Foreground kernel changes the pixel (the max-fold
seed BLACK forces alpha to 255), so dilate is not an identity transform on
every raster. -/
theorem C9_counterexample :
    Image.dilate ⟨[⟨0, 0, 0, 0⟩], 1, 1⟩ Kernel.new ≠ (⟨[⟨0, 0, 0, 0⟩], 1, 1⟩ : Image) := by
  decide

/-- C9 (amended): dilate and erode with the 1×1 all-Foreground kernel are
identity transforms on every raster satisfying the buffer-length invariant
whose pixels have `u8` channels with alpha exactly 255 (in particular on
every binarized raster); a raster with alpha below 255 is not fixed by
dilate, whose BLACK seed forces alpha to 255. -/
theorem C9_identity_kernel (r : Image)
    (hlen : r.data.length = r.height * r.width)
    (hpx : ∀ x, x < r.width → ∀ y, y < r.height →
      (r.get_pixel x y).c0 ≤ 255 ∧ (r.get_pixel x y).c1 ≤ 255 ∧
      (r.get_pixel x y).c2 ≤ 255 ∧ (r.get_pixel x y).c3 = 255) :
    r.dilate Kernel.new = r ∧ r.erode Kernel.new = r := by
  have key : ∀ er : Bool, r.dilate_or_erode Kernel.new er = r := by
    intro er
    apply mapPixels_eq_self _ _ hlen
    intro x y hx hy
    have hcell : cellList Kernel.new.get_dimension = [(0, 0)] := by decide
    have hy' : ¬(((y + (0 : Nat) : Nat) : Int) - (((0 : Nat) : Nat) : Int) < 0 ∨
        (r.height : Int) ≤ ((y + (0 : Nat) : Nat) : Int) - (((0 : Nat) : Nat) : Int)) := by
      omega
    have hx' : ¬(((x + (0 : Nat) : Nat) : Int) - (((0 : Nat) : Nat) : Int) < 0 ∨
        (r.width : Int) ≤ ((x + (0 : Nat) : Nat) : Int) - (((0 : Nat) : Nat) : Int)) := by
      omega
    have hstep : r.mmStep x y 0 Kernel.new (r.get_pixel x y) (WHITE, BLACK) (0, 0) =
        (Pixel.min WHITE (r.get_pixel x y), Pixel.max BLACK (r.get_pixel x y)) := by
      simp only [Image.mmStep]
      rw [if_neg hy', if_neg hx']
      rw [if_neg (show ¬(Kernel.new.get 0 0 ≠ KernelVal.One) by decide)]
      have ex : (((x + (0 : Nat) : Nat) : Int) - (((0 : Nat) : Nat) : Int)).toNat = x := by
        omega
      have ey : (((y + (0 : Nat) : Nat) : Int) - (((0 : Nat) : Nat) : Int)).toNat = y := by
        omega
      rw [ex, ey]
    obtain ⟨h0, h1, h2, h3⟩ := hpx x hx y hy
    have hmin : Pixel.min WHITE (r.get_pixel x y) = r.get_pixel x y :=
      white_min h0 h1 h2 (Nat.le_of_eq h3)
    have hmax : Pixel.max BLACK (r.get_pixel x y) = r.get_pixel x y :=
      black_max h3
    have hc0 : (Kernel.new.get_dimension - 1) / 2 = 0 := rfl
    simp only [Image.get_min_or_max, hcell, hc0, List.foldl_cons, List.foldl_nil, hstep]
    cases er
    · simpa using hmax
    · simpa using hmin
  exact ⟨key false, key true⟩

theorem C9_identity_kernel_witness :
    (⟨[WHITE, BLACK], 2, 1⟩ : Image).data.length =
      (⟨[WHITE, BLACK], 2, 1⟩ : Image).height * (⟨[WHITE, BLACK], 2, 1⟩ : Image).width ∧
    Image.dilate ⟨[WHITE, BLACK], 2, 1⟩ Kernel.new = (⟨[WHITE, BLACK], 2, 1⟩ : Image) ∧
    Image.erode ⟨[WHITE, BLACK], 2, 1⟩ Kernel.new = (⟨[WHITE, BLACK], 2, 1⟩ : Image) := by
  have h := C9_identity_kernel ⟨[WHITE, BLACK], 2, 1⟩ (by decide) (by decide)
  exact ⟨by decide, h.1, h.2⟩

theorem cellReq_iff (img : Image) (k : Kernel) (x y : Nat) :
    (∀ yx ∈ cellList k.get_dimension,
        img.cellReq x y ((k.get_dimension - 1) / 2) k yx) ↔
      (∀ y', y' < k.get_dimension → ∀ x', x' < k.get_dimension →
        (k.get x' y' = KernelVal.One →
          img.samp x y ((k.get_dimension - 1) / 2) (y', x') = WHITE) ∧
        (k.get x' y' = KernelVal.Zero →
          img.samp x y ((k.get_dimension - 1) / 2) (y', x') = BLACK)) := by
  constructor
  · intro h y' hy' x' hx'
    have := h (y', x') (mem_cellList.mpr ⟨hy', hx'⟩)
    exact ⟨this.2, this.1⟩
  · intro h yx hyx
    obtain ⟨hy', hx'⟩ := mem_cellList.mp hyx
    have := h yx.1 hy' yx.2 hx'
    exact ⟨this.2, this.1⟩

theorem match_kernel_cases (img : Image) (k : Kernel) (x y : Nat) :
    (img.match_kernel x y k = WHITE ↔
      ∀ yx ∈ cellList k.get_dimension,
        img.cellReq x y ((k.get_dimension - 1) / 2) k yx) ∧
    (¬(∀ yx ∈ cellList k.get_dimension,
        img.cellReq x y ((k.get_dimension - 1) / 2) k yx) →
      img.match_kernel x y k = BLACK) := by
  by_cases hreq : ∀ yx ∈ cellList k.get_dimension,
      img.cellReq x y ((k.get_dimension - 1) / 2) k yx
  · constructor
    · exact ⟨fun _ => hreq, fun _ => by simp only [Image.match_kernel]; rw [if_pos hreq]⟩
    · intro h
      exact absurd hreq h
  · constructor
    · constructor
      · intro hw
        simp only [Image.match_kernel] at hw
        rw [if_neg hreq] at hw
        exact absurd hw (by decide)
      · intro h
        exact absurd h hreq
    · intro _
      simp only [Image.match_kernel]
      rw [if_neg hreq]

/-- C3: at every pixel, `hit_or_miss` produces WHITE iff every
non-DontCare kernel cell meets its requirement — the sampled value of a
Foreground cell (the actual neighbor, or the center pixel when the mapped
coordinate is off-raster) equals WHITE and the sampled value of a
Background cell equals BLACK — and produces BLACK otherwise; with an all-DontCare
kernel it returns an all-WHITE raster of the input dimensions. -/
theorem C3_hit_or_miss_exact_match (img : Image) (k : Kernel) (x y : Nat)
    (hx : x < img.width) (hy : y < img.height) :
    ((img.hit_or_miss k).get_pixel x y = WHITE ↔
      (∀ y', y' < k.get_dimension → ∀ x', x' < k.get_dimension →
        (k.get x' y' = KernelVal.One →
          img.samp x y ((k.get_dimension - 1) / 2) (y', x') = WHITE) ∧
        (k.get x' y' = KernelVal.Zero →
          img.samp x y ((k.get_dimension - 1) / 2) (y', x') = BLACK))) ∧
    ((img.hit_or_miss k).get_pixel x y = WHITE ∨
      (img.hit_or_miss k).get_pixel x y = BLACK) ∧
    ((∀ x', x' < k.get_dimension → ∀ y', y' < k.get_dimension →
        k.get x' y' = KernelVal.DontCare) →
      ((img.hit_or_miss k).width = img.width ∧
       (img.hit_or_miss k).height = img.height ∧
       (img.hit_or_miss k).get_pixel x y = WHITE)) := by
  have hget : (img.hit_or_miss k).get_pixel x y = img.match_kernel x y k :=
    Image.get_mapPixels img _ hx hy
  obtain ⟨h1, h2⟩ := match_kernel_cases img k x y
  refine ⟨?_, ?_, ?_⟩
  · rw [hget, h1]
    exact cellReq_iff img k x y
  · rw [hget]
    by_cases hreq : ∀ yx ∈ cellList k.get_dimension,
        img.cellReq x y ((k.get_dimension - 1) / 2) k yx
    · exact Or.inl (h1.mpr hreq)
    · exact Or.inr (h2 hreq)
  · intro hdc
    refine ⟨rfl, rfl, ?_⟩
    rw [hget, h1]
    intro yx hyx
    obtain ⟨hy', hx'⟩ := mem_cellList.mp hyx
    have hv := hdc yx.2 hx' yx.1 hy'
    constructor
    · intro hz
      rw [hv] at hz
      exact absurd hz (by decide)
    · intro ho
      rw [hv] at ho
      exact absurd ho (by decide)

theorem C3_hit_or_miss_exact_match_witness :
    (0 : Nat) < (⟨[⟨9, 9, 9, 9⟩], 1, 1⟩ : Image).width ∧
    ((Image.hit_or_miss ⟨[⟨9, 9, 9, 9⟩], 1, 1⟩
        ⟨3, List.replicate 9 KernelVal.DontCare⟩).width = 1 ∧
      (Image.hit_or_miss ⟨[⟨9, 9, 9, 9⟩], 1, 1⟩
        ⟨3, List.replicate 9 KernelVal.DontCare⟩).height = 1 ∧
      (Image.hit_or_miss ⟨[⟨9, 9, 9, 9⟩], 1, 1⟩
        ⟨3, List.replicate 9 KernelVal.DontCare⟩).get_pixel 0 0 = WHITE) :=
  ⟨by decide,
   (C3_hit_or_miss_exact_match ⟨[⟨9, 9, 9, 9⟩], 1, 1⟩
      ⟨3, List.replicate 9 KernelVal.DontCare⟩ 0 0 (by decide) (by decide)).2.2
     (by decide)⟩

/-- C6 counterexample: at the gray pixel (13,13,13) with threshold 13 the
program computes the luma in `f32` as 12.999999… (below 13) and emits
BLACK, although the exact value of `0.2126*13 + 0.7152*13 + 0.0722*13` is
exactly 13, not below the threshold — so the exact-arithmetic threshold
rule stated by the claim does not hold of the program. -/
theorem C6_counterexample :
    (Image.binarize ⟨[⟨13, 13, 13, 255⟩], 1, 1⟩ 13).get_pixel 0 0 = BLACK ∧
    luma ⟨13, 13, 13, 255⟩ < 13 * 2 ^ 32 ∧
    ¬((13 : ℚ) * 0.2126 + (13 : ℚ) * 0.7152 + (13 : ℚ) * 0.0722 <
      ((13 : Nat) : ℚ)) := by
  refine ⟨by decide, by decide, ?_⟩
  norm_num

/-- C6 (amended): `binarize` maps each pixel to BLACK when the
`f32`-evaluated luma `0.2126*R + 0.7152*G + 0.0722*B` (IEEE-754
round-to-nearest-even applied to each literal, product and sum, exactly as
the program computes it) is below the threshold and to WHITE otherwise;
every channel of every output pixel is exactly 0 or 255 with alpha always
255; and `binarize` is idempotent at the same (u8) threshold. -/
theorem C6_binarize_threshold_and_idempotent (r : Image) (t : Nat) (ht : t ≤ 255) :
    (∀ x y, x < r.width → y < r.height →
      (r.binarize t).get_pixel x y =
        (if luma (r.get_pixel x y) < t * 2 ^ 32 then BLACK else WHITE) ∧
      (((r.binarize t).get_pixel x y).c0 = 0 ∨ ((r.binarize t).get_pixel x y).c0 = 255) ∧
      (((r.binarize t).get_pixel x y).c1 = 0 ∨ ((r.binarize t).get_pixel x y).c1 = 255) ∧
      (((r.binarize t).get_pixel x y).c2 = 0 ∨ ((r.binarize t).get_pixel x y).c2 = 255) ∧
      ((r.binarize t).get_pixel x y).c3 = 255) ∧
    (r.binarize t).binarize t = r.binarize t := by
  have hbin : ∀ x y, x < r.width → y < r.height →
      (r.binarize t).get_pixel x y =
        (if luma (r.get_pixel x y) < t * 2 ^ 32 then BLACK else WHITE) := by
    intro x y hx hy
    exact Image.get_mapPixels r _ hx hy
  have hbw : ∀ x y, x < r.width → y < r.height →
      (r.binarize t).get_pixel x y = BLACK ∨ (r.binarize t).get_pixel x y = WHITE := by
    intro x y hx hy
    rw [hbin x y hx hy]
    split
    · exact Or.inl rfl
    · exact Or.inr rfl
  constructor
  · intro x y hx hy
    refine ⟨hbin x y hx hy, ?_, ?_, ?_, ?_⟩ <;>
      rcases hbw x y hx hy with h | h <;> rw [h] <;> decide
  · have hlen : (r.binarize t).data.length =
        (r.binarize t).height * (r.binarize t).width := by
      simp [Image.binarize, Image.mapPixels]
    apply mapPixels_eq_self _ _ hlen
    intro x y hx hy
    rcases hbw x y hx hy with hq | hq
    · have htpos : 0 < t := by
        by_contra h0
        have ht0 : t = 0 := by omega
        subst ht0
        have hnl : ¬(luma (r.get_pixel x y) < 0 * 2 ^ 32) := by simp
        rw [hbin x y hx hy, if_neg hnl] at hq
        exact absurd hq (by decide)
      have hcond : luma ((r.binarize t).get_pixel x y) < t * 2 ^ 32 := by
        rw [hq]
        have hlb : luma BLACK = 0 := by decide
        rw [hlb]
        have h32 : 0 < 2 ^ 32 := Nat.pos_pow_of_pos 32 (by omega)
        exact Nat.mul_pos htpos h32
      rw [if_pos hcond, hq]
    · have hcond : ¬(luma ((r.binarize t).get_pixel x y) < t * 2 ^ 32) := by
        rw [hq]
        have hlw : luma WHITE = 255 * 2 ^ 32 := by decide
        rw [hlw]
        have hmul : t * 2 ^ 32 ≤ 255 * 2 ^ 32 := Nat.mul_le_mul_right _ ht
        omega
      rw [if_neg hcond, hq]

theorem C6_binarize_threshold_and_idempotent_witness :
    (128 : Nat) ≤ 255 ∧
    ((⟨[⟨100, 100, 100, 7⟩], 1, 1⟩ : Image).binarize 128).binarize 128 =
      (⟨[⟨100, 100, 100, 7⟩], 1, 1⟩ : Image).binarize 128 :=
  ⟨by decide,
   (C6_binarize_threshold_and_idempotent ⟨[⟨100, 100, 100, 7⟩], 1, 1⟩ 128 (by decide)).2⟩

theorem bw_min {a b : Pixel} (ha : a = BLACK ∨ a = WHITE) (hb : b = BLACK ∨ b = WHITE) :
    a.min b = BLACK ∨ a.min b = WHITE := by
  rcases ha with h | h <;> rcases hb with h' | h' <;> rw [h, h'] <;> decide

theorem bw_max {a b : Pixel} (ha : a = BLACK ∨ a = WHITE) (hb : b = BLACK ∨ b = WHITE) :
    a.max b = BLACK ∨ a.max b = WHITE := by
  rcases ha with h | h <;> rcases hb with h' | h' <;> rw [h, h'] <;> decide

theorem mmStep_preserves_bw (img : Image) (row col c : Nat) (k : Kernel)
    (hb : img.Binary) (hrow : row < img.width) (hcol : col < img.height)
    (acc : Pixel × Pixel) (yx : Nat × Nat)
    (h1 : acc.1 = BLACK ∨ acc.1 = WHITE) (h2 : acc.2 = BLACK ∨ acc.2 = WHITE) :
    ((img.mmStep row col c k (img.get_pixel row col) acc yx).1 = BLACK ∨
      (img.mmStep row col c k (img.get_pixel row col) acc yx).1 = WHITE) ∧
    ((img.mmStep row col c k (img.get_pixel row col) acc yx).2 = BLACK ∨
      (img.mmStep row col c k (img.get_pixel row col) acc yx).2 = WHITE) := by
  have hc : img.get_pixel row col = BLACK ∨ img.get_pixel row col = WHITE :=
    hb row hrow col hcol
  simp only [Image.mmStep]
  by_cases hy' : ((col + yx.1 : Nat) : Int) - ((c : Nat) : Int) < 0 ∨
      (img.height : Int) ≤ ((col + yx.1 : Nat) : Int) - ((c : Nat) : Int)
  · rw [if_pos hy']
    exact ⟨bw_min h1 hc, bw_max h2 hc⟩
  · rw [if_neg hy']
    by_cases hx' : ((row + yx.2 : Nat) : Int) - ((c : Nat) : Int) < 0 ∨
        (img.width : Int) ≤ ((row + yx.2 : Nat) : Int) - ((c : Nat) : Int)
    · rw [if_pos hx']
      exact ⟨bw_min h1 hc, bw_max h2 hc⟩
    · rw [if_neg hx']
      have hp : img.get_pixel ((((row + yx.2 : Nat) : Int) - ((c : Nat) : Int)).toNat)
            ((((col + yx.1 : Nat) : Int) - ((c : Nat) : Int)).toNat) = BLACK ∨
          img.get_pixel ((((row + yx.2 : Nat) : Int) - ((c : Nat) : Int)).toNat)
            ((((col + yx.1 : Nat) : Int) - ((c : Nat) : Int)).toNat) = WHITE := by
        apply hb
        · omega
        · omega
      by_cases hk : k.get yx.2 yx.1 ≠ KernelVal.One
      · rw [if_pos hk]
        exact ⟨h1, h2⟩
      · rw [if_neg hk]
        exact ⟨bw_min h1 hp, bw_max h2 hp⟩

theorem foldl_mmStep_bw (img : Image) (row col c : Nat) (k : Kernel)
    (hb : img.Binary) (hrow : row < img.width) (hcol : col < img.height)
    (l : List (Nat × Nat)) (acc : Pixel × Pixel)
    (h1 : acc.1 = BLACK ∨ acc.1 = WHITE) (h2 : acc.2 = BLACK ∨ acc.2 = WHITE) :
    ((l.foldl (img.mmStep row col c k (img.get_pixel row col)) acc).1 = BLACK ∨
      (l.foldl (img.mmStep row col c k (img.get_pixel row col)) acc).1 = WHITE) ∧
    ((l.foldl (img.mmStep row col c k (img.get_pixel row col)) acc).2 = BLACK ∨
      (l.foldl (img.mmStep row col c k (img.get_pixel row col)) acc).2 = WHITE) := by
  induction l generalizing acc with
  | nil => exact ⟨h1, h2⟩
  | cons yx l ih =>
    rw [List.foldl_cons]
    obtain ⟨g1, g2⟩ := mmStep_preserves_bw img row col c k hb hrow hcol acc yx h1 h2
    exact ih _ g1 g2

theorem gmm_bw (img : Image) (row col : Nat) (k : Kernel) (er : Bool)
    (hb : img.Binary) (hrow : row < img.width) (hcol : col < img.height) :
    img.get_min_or_max row col k er = BLACK ∨
      img.get_min_or_max row col k er = WHITE := by
  simp only [Image.get_min_or_max]
  obtain ⟨g1, g2⟩ := foldl_mmStep_bw img row col ((k.get_dimension - 1) / 2) k
    hb hrow hcol (cellList k.get_dimension) (WHITE, BLACK)
    (Or.inr rfl) (Or.inl rfl)
  cases er
  · simpa using g2
  · simpa using g1

theorem dilate_or_erode_binary (r : Image) (k : Kernel) (er : Bool)
    (hb : r.Binary) : (r.dilate_or_erode k er).Binary := by
  intro x hx y hy
  have hg : (r.dilate_or_erode k er).get_pixel x y = r.get_min_or_max x y k er :=
    Image.get_mapPixels r _ hx hy
  rw [hg]
  exact gmm_bw r x y k er hb hx hy

theorem hit_or_miss_binary (r : Image) (k : Kernel) : (r.hit_or_miss k).Binary := by
  intro x hx y hy
  have hg : (r.hit_or_miss k).get_pixel x y = r.match_kernel x y k :=
    Image.get_mapPixels r _ hx hy
  rw [hg]
  simp only [Image.match_kernel]
  split
  · exact Or.inr rfl
  · exact Or.inl rfl

/-- C10: every pixel of the rasters produced by dilate, erode, open,
close, thinning and thickening from a binary (all-BLACK-or-WHITE) raster
is again exactly BLACK or WHITE, with width and height preserved; and
`hit_or_miss` produces an all-BLACK-or-WHITE raster of the input
dimensions even from arbitrary input. -/
theorem C10_binary_preservation (r : Image) (k : Kernel) :
    (r.Binary →
      ((r.dilate k).Binary ∧ (r.dilate k).width = r.width ∧
        (r.dilate k).height = r.height) ∧
      ((r.erode k).Binary ∧ (r.erode k).width = r.width ∧
        (r.erode k).height = r.height) ∧
      (∀ o, r.open' k = some o → o.Binary ∧ o.width = r.width ∧
        o.height = r.height) ∧
      (∀ o, r.close k = some o → o.Binary ∧ o.width = r.width ∧
        o.height = r.height) ∧
      ((r.thinning k).Binary ∧ (r.thinning k).width = r.width ∧
        (r.thinning k).height = r.height) ∧
      ((r.thickening k).Binary ∧ (r.thickening k).width = r.width ∧
        (r.thickening k).height = r.height)) ∧
    ((r.hit_or_miss k).Binary ∧ (r.hit_or_miss k).width = r.width ∧
      (r.hit_or_miss k).height = r.height) := by
  constructor
  · intro hb
    refine ⟨⟨dilate_or_erode_binary r k false hb, rfl, rfl⟩,
            ⟨dilate_or_erode_binary r k true hb, rfl, rfl⟩, ?_, ?_, ?_, ?_⟩
    · intro o ho
      by_cases he : k.get_dimension % 2 = 0
      · simp [Image.open', Kernel.change_dimension, he] at ho
      · simp only [Image.open', Kernel.change_dimension, if_neg he] at ho
        have ho' : ((r.erode
            { dimension := k.get_dimension,
              data := List.replicate (k.get_dimension * k.get_dimension)
                KernelVal.One }).dilate
            { dimension := k.get_dimension,
              data := List.replicate (k.get_dimension * k.get_dimension)
                KernelVal.One }) = o := by
          exact Option.some.inj ho
        rw [← ho']
        exact ⟨dilate_or_erode_binary _ _ false
          (dilate_or_erode_binary r _ true hb), rfl, rfl⟩
    · intro o ho
      by_cases he : k.get_dimension % 2 = 0
      · simp [Image.close, Kernel.change_dimension, he] at ho
      · simp only [Image.close, Kernel.change_dimension, if_neg he] at ho
        have ho' : ((r.dilate
            { dimension := k.get_dimension,
              data := List.replicate (k.get_dimension * k.get_dimension)
                KernelVal.One }).erode
            { dimension := k.get_dimension,
              data := List.replicate (k.get_dimension * k.get_dimension)
                KernelVal.One }) = o := by
          exact Option.some.inj ho
        rw [← ho']
        exact ⟨dilate_or_erode_binary _ _ true
          (dilate_or_erode_binary r _ false hb), rfl, rfl⟩
    · refine ⟨?_, rfl, rfl⟩
      intro x hx y hy
      have hg : (r.thinning k).get_pixel x y =
          (if r.match_kernel x y k = WHITE then BLACK else r.get_pixel x y) :=
        Image.get_mapPixels r _ hx hy
      rw [hg]
      split
      · exact Or.inl rfl
      · exact hb x hx y hy
    · refine ⟨?_, rfl, rfl⟩
      intro x hx y hy
      have hg : (r.thickening k).get_pixel x y =
          (if r.match_kernel x y k = WHITE then WHITE else r.get_pixel x y) :=
        Image.get_mapPixels r _ hx hy
      rw [hg]
      split
      · exact Or.inr rfl
      · exact hb x hx y hy
  · exact ⟨hit_or_miss_binary r k, rfl, rfl⟩

theorem C10_binary_preservation_witness :
    (⟨[BLACK, WHITE], 2, 1⟩ : Image).Binary ∧
    (Image.dilate ⟨[BLACK, WHITE], 2, 1⟩ (fullKernel 3)).Binary ∧
    ((⟨[BLACK, WHITE], 2, 1⟩ : Image).open' (fullKernel 3) =
      some ((Image.erode ⟨[BLACK, WHITE], 2, 1⟩ (fullKernel 3)).dilate (fullKernel 3)) ∧
      ((Image.erode ⟨[BLACK, WHITE], 2, 1⟩ (fullKernel 3)).dilate (fullKernel 3)).Binary) := by
  have h := C10_binary_preservation ⟨[BLACK, WHITE], 2, 1⟩ (fullKernel 3)
  have hb : (⟨[BLACK, WHITE], 2, 1⟩ : Image).Binary := by decide
  have hopen : (⟨[BLACK, WHITE], 2, 1⟩ : Image).open' (fullKernel 3) =
      some ((Image.erode ⟨[BLACK, WHITE], 2, 1⟩ (fullKernel 3)).dilate (fullKernel 3)) := by
    decide
  exact ⟨hb, ((h.1 hb).1).1, hopen, (((h.1 hb).2.2.1) _ hopen).1⟩

theorem fullKernel_dim (d : Nat) : (fullKernel d).get_dimension = d := rfl

theorem fullKernel_get {d x y : Nat} (hx : x < d) (hy : y < d) :
    (fullKernel d).get x y = KernelVal.One := by
  have hidx : y * d + x < d * d := by
    have h1 : y * d + x < (y + 1) * d := by
      simpa [Nat.succ_mul] using Nat.add_lt_add_left hx (y * d)
    exact Nat.lt_of_lt_of_le h1 (Nat.mul_le_mul_right _ hy)
  simp only [fullKernel, Kernel.get]
  rw [List.getD_eq_getElem?_getD, List.getElem?_replicate, if_pos hidx]
  rfl

theorem stepMin_full (img : Image) (row col c d : Nat) (a : Pixel) (yx : Nat × Nat)
    (hy : yx.1 < d) (hx : yx.2 < d) :
    stepMin img row col c (fullKernel d) (img.get_pixel row col) a yx =
      a.min (img.samp row col c yx) := by
  simp only [stepMin, Image.samp]
  by_cases hy' : ((col + yx.1 : Nat) : Int) - ((c : Nat) : Int) < 0 ∨
      (img.height : Int) ≤ ((col + yx.1 : Nat) : Int) - ((c : Nat) : Int)
  · rw [if_pos hy', if_pos hy']
  · rw [if_neg hy', if_neg hy']
    by_cases hx' : ((row + yx.2 : Nat) : Int) - ((c : Nat) : Int) < 0 ∨
        (img.width : Int) ≤ ((row + yx.2 : Nat) : Int) - ((c : Nat) : Int)
    · rw [if_pos hx', if_pos hx']
    · rw [if_neg hx', if_neg hx']
      rw [if_neg (show ¬((fullKernel d).get yx.2 yx.1 ≠ KernelVal.One) by
        simp [fullKernel_get hx hy])]

theorem stepMax_full (img : Image) (row col c d : Nat) (b : Pixel) (yx : Nat × Nat)
    (hy : yx.1 < d) (hx : yx.2 < d) :
    stepMax img row col c (fullKernel d) (img.get_pixel row col) b yx =
      b.max (img.samp row col c yx) := by
  simp only [stepMax, Image.samp]
  by_cases hy' : ((col + yx.1 : Nat) : Int) - ((c : Nat) : Int) < 0 ∨
      (img.height : Int) ≤ ((col + yx.1 : Nat) : Int) - ((c : Nat) : Int)
  · rw [if_pos hy', if_pos hy']
  · rw [if_neg hy', if_neg hy']
    by_cases hx' : ((row + yx.2 : Nat) : Int) - ((c : Nat) : Int) < 0 ∨
        (img.width : Int) ≤ ((row + yx.2 : Nat) : Int) - ((c : Nat) : Int)
    · rw [if_pos hx', if_pos hx']
    · rw [if_neg hx', if_neg hx']
      rw [if_neg (show ¬((fullKernel d).get yx.2 yx.1 ≠ KernelVal.One) by
        simp [fullKernel_get hx hy])]

theorem gmmE_full (img : Image) (row col d : Nat) :
    img.get_min_or_max row col (fullKernel d) true =
      (cellList d).foldl
        (fun a yx => a.min (img.samp row col ((d - 1) / 2) yx)) WHITE := by
  rw [gmm_erode_eq, fullKernel_dim]
  apply List.foldl_ext
  intro a yx hyx
  obtain ⟨hy, hx⟩ := mem_cellList.mp hyx
  exact stepMin_full img row col ((d - 1) / 2) d a yx hy hx

theorem gmmD_full (img : Image) (row col d : Nat) :
    img.get_min_or_max row col (fullKernel d) false =
      (cellList d).foldl
        (fun b yx => b.max (img.samp row col ((d - 1) / 2) yx)) BLACK := by
  rw [gmm_dilate_eq, fullKernel_dim]
  apply List.foldl_ext
  intro b yx hyx
  obtain ⟨hy, hx⟩ := mem_cellList.mp hyx
  exact stepMax_full img row col ((d - 1) / 2) d b yx hy hx

theorem gmmE_le_white (img : Image) (row col d : Nat) :
    img.get_min_or_max row col (fullKernel d) true ≤ WHITE := by
  rw [gmmE_full]
  exact foldl_min_le_seed _ _ _

theorem black_le_gmmD (img : Image) (row col d : Nat) :
    BLACK ≤ img.get_min_or_max row col (fullKernel d) false := by
  rw [gmmD_full]
  exact foldl_max_ge_seed _ _ _

theorem gmmE_le_samp (img : Image) (row col d : Nat) {yx : Nat × Nat}
    (h : yx ∈ cellList d) :
    img.get_min_or_max row col (fullKernel d) true ≤
      img.samp row col ((d - 1) / 2) yx := by
  rw [gmmE_full]
  exact foldl_min_le_mem _ _ _ h

theorem samp_le_gmmD (img : Image) (row col d : Nat) {yx : Nat × Nat}
    (h : yx ∈ cellList d) :
    img.samp row col ((d - 1) / 2) yx ≤
      img.get_min_or_max row col (fullKernel d) false := by
  rw [gmmD_full]
  exact foldl_max_ge_mem _ _ _ h

theorem le_gmmE (img : Image) (row col d : Nat) (v : Pixel) (hw : v ≤ WHITE)
    (h : ∀ yx ∈ cellList d, v ≤ img.samp row col ((d - 1) / 2) yx) :
    v ≤ img.get_min_or_max row col (fullKernel d) true := by
  rw [gmmE_full]
  exact le_foldl_min _ _ _ _ hw h

theorem gmmD_le (img : Image) (row col d : Nat) (v : Pixel) (hb : BLACK ≤ v)
    (h : ∀ yx ∈ cellList d, img.samp row col ((d - 1) / 2) yx ≤ v) :
    img.get_min_or_max row col (fullKernel d) false ≤ v := by
  rw [gmmD_full]
  exact foldl_max_le _ _ _ _ hb h

theorem center_cell_mem (d : Nat) (hd : d % 2 = 1) :
    ((d - 1) / 2, (d - 1) / 2) ∈ cellList d :=
  mem_cellList.mpr ⟨by omega, by omega⟩

theorem samp_center (img : Image) (row col c : Nat)
    (hrow : row < img.width) (hcol : col < img.height) :
    img.samp row col c (c, c) = img.get_pixel row col := by
  simp only [Image.samp]
  have hy' : ¬(((col + c : Nat) : Int) - ((c : Nat) : Int) < 0 ∨
      (img.height : Int) ≤ ((col + c : Nat) : Int) - ((c : Nat) : Int)) := by
    omega
  have hx' : ¬(((row + c : Nat) : Int) - ((c : Nat) : Int) < 0 ∨
      (img.width : Int) ≤ ((row + c : Nat) : Int) - ((c : Nat) : Int)) := by
    omega
  rw [if_neg hy', if_neg hx']
  have ex : (((row + c : Nat) : Int) - ((c : Nat) : Int)).toNat = row := by omega
  have ey : (((col + c : Nat) : Int) - ((c : Nat) : Int)).toNat = col := by omega
  rw [ex, ey]

theorem samp_mirror (img : Image) (d : Nat) (hd : d % 2 = 1) (row col : Nat)
    (hrow : row < img.width) (hcol : col < img.height) (y x : Nat)
    (hy : y < d) (hx : x < d)
    (h1 : (d - 1) / 2 ≤ col + y) (h2 : col + y < img.height + (d - 1) / 2)
    (h3 : (d - 1) / 2 ≤ row + x) (h4 : row + x < img.width + (d - 1) / 2) :
    row + x - (d - 1) / 2 < img.width ∧
    col + y - (d - 1) / 2 < img.height ∧
    (d - 1 - y < d ∧ d - 1 - x < d) ∧
    img.samp (row + x - (d - 1) / 2) (col + y - (d - 1) / 2) ((d - 1) / 2)
      (d - 1 - y, d - 1 - x) = img.get_pixel row col := by
  have hc2 : 2 * ((d - 1) / 2) = d - 1 := by omega
  refine ⟨by omega, by omega, ⟨by omega, by omega⟩, ?_⟩
  simp only [Image.samp]
  have hy' : ¬((((col + y - (d - 1) / 2) + (d - 1 - y) : Nat) : Int) -
        (((d - 1) / 2 : Nat) : Int) < 0 ∨
      (img.height : Int) ≤ (((col + y - (d - 1) / 2) + (d - 1 - y) : Nat) : Int) -
        (((d - 1) / 2 : Nat) : Int)) := by
    omega
  have hx' : ¬((((row + x - (d - 1) / 2) + (d - 1 - x) : Nat) : Int) -
        (((d - 1) / 2 : Nat) : Int) < 0 ∨
      (img.width : Int) ≤ (((row + x - (d - 1) / 2) + (d - 1 - x) : Nat) : Int) -
        (((d - 1) / 2 : Nat) : Int)) := by
    omega
  rw [if_neg hy', if_neg hx']
  have ex : ((((row + x - (d - 1) / 2) + (d - 1 - x) : Nat) : Int) -
      (((d - 1) / 2 : Nat) : Int)).toNat = row := by
    omega
  have ey : ((((col + y - (d - 1) / 2) + (d - 1 - y) : Nat) : Int) -
      (((d - 1) / 2 : Nat) : Int)).toNat = col := by
    omega
  rw [ex, ey]

theorem gmmE_le_center (img : Image) (d : Nat) (hd : d % 2 = 1) (row col : Nat)
    (hrow : row < img.width) (hcol : col < img.height) :
    img.get_min_or_max row col (fullKernel d) true ≤ img.get_pixel row col := by
  have h := gmmE_le_samp img row col d (center_cell_mem d hd)
  rwa [samp_center img row col _ hrow hcol] at h

theorem center_le_gmmD (img : Image) (d : Nat) (hd : d % 2 = 1) (row col : Nat)
    (hrow : row < img.width) (hcol : col < img.height) :
    img.get_pixel row col ≤ img.get_min_or_max row col (fullKernel d) false := by
  have h := samp_le_gmmD img row col d (center_cell_mem d hd)
  rwa [samp_center img row col _ hrow hcol] at h

theorem gmmE_le_neighbor (img : Image) (d : Nat) (hd : d % 2 = 1) (row col : Nat)
    (hrow : row < img.width) (hcol : col < img.height) (y x : Nat)
    (hy : y < d) (hx : x < d)
    (h1 : (d - 1) / 2 ≤ col + y) (h2 : col + y < img.height + (d - 1) / 2)
    (h3 : (d - 1) / 2 ≤ row + x) (h4 : row + x < img.width + (d - 1) / 2) :
    img.get_min_or_max (row + x - (d - 1) / 2) (col + y - (d - 1) / 2)
        (fullKernel d) true ≤ img.get_pixel row col := by
  obtain ⟨hqw, hqh, ⟨hmy, hmx⟩, hsamp⟩ :=
    samp_mirror img d hd row col hrow hcol y x hy hx h1 h2 h3 h4
  have hmem : ((d - 1 - y, d - 1 - x) : Nat × Nat) ∈ cellList d :=
    mem_cellList.mpr ⟨hmy, hmx⟩
  have h := gmmE_le_samp img (row + x - (d - 1) / 2) (col + y - (d - 1) / 2) d hmem
  rwa [hsamp] at h

theorem neighbor_le_gmmD (img : Image) (d : Nat) (hd : d % 2 = 1) (row col : Nat)
    (hrow : row < img.width) (hcol : col < img.height) (y x : Nat)
    (hy : y < d) (hx : x < d)
    (h1 : (d - 1) / 2 ≤ col + y) (h2 : col + y < img.height + (d - 1) / 2)
    (h3 : (d - 1) / 2 ≤ row + x) (h4 : row + x < img.width + (d - 1) / 2) :
    img.get_pixel row col ≤
      img.get_min_or_max (row + x - (d - 1) / 2) (col + y - (d - 1) / 2)
        (fullKernel d) false := by
  obtain ⟨hqw, hqh, ⟨hmy, hmx⟩, hsamp⟩ :=
    samp_mirror img d hd row col hrow hcol y x hy hx h1 h2 h3 h4
  have hmem : ((d - 1 - y, d - 1 - x) : Nat × Nat) ∈ cellList d :=
    mem_cellList.mpr ⟨hmy, hmx⟩
  have h := samp_le_gmmD img (row + x - (d - 1) / 2) (col + y - (d - 1) / 2) d hmem
  rwa [hsamp] at h

theorem le_erode_dilate (u : Image) (d : Nat) (hd : d % 2 = 1) (row col : Nat)
    (hrow : row < u.width) (hcol : col < u.height)
    (hub : ∀ a, a < u.width → ∀ b, b < u.height → u.get_pixel a b ≤ WHITE) :
    u.get_pixel row col ≤
      (u.dilate_or_erode (fullKernel d) false).get_min_or_max row col
        (fullKernel d) true := by
  apply le_gmmE
  · exact hub row hrow col hcol
  · intro yx hyx
    obtain ⟨hy, hx⟩ := mem_cellList.mp hyx
    simp only [Image.samp]
    have hh : (u.dilate_or_erode (fullKernel d) false).height = u.height := rfl
    have hw : (u.dilate_or_erode (fullKernel d) false).width = u.width := rfl
    by_cases hy' : ((col + yx.1 : Nat) : Int) - (((d - 1) / 2 : Nat) : Int) < 0 ∨
        ((u.dilate_or_erode (fullKernel d) false).height : Int) ≤
          ((col + yx.1 : Nat) : Int) - (((d - 1) / 2 : Nat) : Int)
    · rw [if_pos hy']
      have hsg : (u.dilate_or_erode (fullKernel d) false).get_pixel row col =
          u.get_min_or_max row col (fullKernel d) false :=
        Image.get_mapPixels u _ hrow hcol
      rw [hsg]
      exact center_le_gmmD u d hd row col hrow hcol
    · rw [if_neg hy']
      by_cases hx' : ((row + yx.2 : Nat) : Int) - (((d - 1) / 2 : Nat) : Int) < 0 ∨
          ((u.dilate_or_erode (fullKernel d) false).width : Int) ≤
            ((row + yx.2 : Nat) : Int) - (((d - 1) / 2 : Nat) : Int)
      · rw [if_pos hx']
        have hsg : (u.dilate_or_erode (fullKernel d) false).get_pixel row col =
            u.get_min_or_max row col (fullKernel d) false :=
          Image.get_mapPixels u _ hrow hcol
        rw [hsg]
        exact center_le_gmmD u d hd row col hrow hcol
      · rw [if_neg hx']
        have ex : (((row + yx.2 : Nat) : Int) - (((d - 1) / 2 : Nat) : Int)).toNat =
            row + yx.2 - (d - 1) / 2 := by
          omega
        have ey : (((col + yx.1 : Nat) : Int) - (((d - 1) / 2 : Nat) : Int)).toNat =
            col + yx.1 - (d - 1) / 2 := by
          omega
        rw [ex, ey]
        have hqw : row + yx.2 - (d - 1) / 2 < u.width := by omega
        have hqh : col + yx.1 - (d - 1) / 2 < u.height := by omega
        have hsg : (u.dilate_or_erode (fullKernel d) false).get_pixel
            (row + yx.2 - (d - 1) / 2) (col + yx.1 - (d - 1) / 2) =
            u.get_min_or_max (row + yx.2 - (d - 1) / 2) (col + yx.1 - (d - 1) / 2)
              (fullKernel d) false :=
          Image.get_mapPixels u _ hqw hqh
        rw [hsg]
        exact neighbor_le_gmmD u d hd row col hrow hcol yx.1 yx.2 hy hx
          (by omega) (by omega) (by omega) (by omega)

theorem dilate_erode_le (v : Image) (d : Nat) (hd : d % 2 = 1) (row col : Nat)
    (hrow : row < v.width) (hcol : col < v.height)
    (hlb : ∀ a, a < v.width → ∀ b, b < v.height → BLACK ≤ v.get_pixel a b) :
    (v.dilate_or_erode (fullKernel d) true).get_min_or_max row col
        (fullKernel d) false ≤ v.get_pixel row col := by
  apply gmmD_le
  · exact hlb row hrow col hcol
  · intro yx hyx
    obtain ⟨hy, hx⟩ := mem_cellList.mp hyx
    simp only [Image.samp]
    have hh : (v.dilate_or_erode (fullKernel d) true).height = v.height := rfl
    have hw : (v.dilate_or_erode (fullKernel d) true).width = v.width := rfl
    by_cases hy' : ((col + yx.1 : Nat) : Int) - (((d - 1) / 2 : Nat) : Int) < 0 ∨
        ((v.dilate_or_erode (fullKernel d) true).height : Int) ≤
          ((col + yx.1 : Nat) : Int) - (((d - 1) / 2 : Nat) : Int)
    · rw [if_pos hy']
      have hsg : (v.dilate_or_erode (fullKernel d) true).get_pixel row col =
          v.get_min_or_max row col (fullKernel d) true :=
        Image.get_mapPixels v _ hrow hcol
      rw [hsg]
      exact gmmE_le_center v d hd row col hrow hcol
    · rw [if_neg hy']
      by_cases hx' : ((row + yx.2 : Nat) : Int) - (((d - 1) / 2 : Nat) : Int) < 0 ∨
          ((v.dilate_or_erode (fullKernel d) true).width : Int) ≤
            ((row + yx.2 : Nat) : Int) - (((d - 1) / 2 : Nat) : Int)
      · rw [if_pos hx']
        have hsg : (v.dilate_or_erode (fullKernel d) true).get_pixel row col =
            v.get_min_or_max row col (fullKernel d) true :=
          Image.get_mapPixels v _ hrow hcol
        rw [hsg]
        exact gmmE_le_center v d hd row col hrow hcol
      · rw [if_neg hx']
        have ex : (((row + yx.2 : Nat) : Int) - (((d - 1) / 2 : Nat) : Int)).toNat =
            row + yx.2 - (d - 1) / 2 := by
          omega
        have ey : (((col + yx.1 : Nat) : Int) - (((d - 1) / 2 : Nat) : Int)).toNat =
            col + yx.1 - (d - 1) / 2 := by
          omega
        rw [ex, ey]
        have hqw : row + yx.2 - (d - 1) / 2 < v.width := by omega
        have hqh : col + yx.1 - (d - 1) / 2 < v.height := by omega
        have hsg : (v.dilate_or_erode (fullKernel d) true).get_pixel
            (row + yx.2 - (d - 1) / 2) (col + yx.1 - (d - 1) / 2) =
            v.get_min_or_max (row + yx.2 - (d - 1) / 2) (col + yx.1 - (d - 1) / 2)
              (fullKernel d) true :=
          Image.get_mapPixels v _ hqw hqh
        rw [hsg]
        exact gmmE_le_neighbor v d hd row col hrow hcol yx.1 yx.2 hy hx
          (by omega) (by omega) (by omega) (by omega)

theorem mapPixels_congr (img1 img2 : Image) (f1 f2 : Nat → Nat → Pixel)
    (hw : img1.width = img2.width) (hh : img1.height = img2.height)
    (hf : ∀ x y, x < img2.width → y < img2.height → f1 x y = f2 x y) :
    img1.mapPixels f1 = img2.mapPixels f2 := by
  simp only [Image.mapPixels]
  rw [Image.mk.injEq]
  refine ⟨?_, hw, hh⟩
  rw [hw, hh]
  apply List.map_congr_left
  intro i hi
  rw [List.mem_range] at hi
  have hwpos : 0 < img2.width := by
    rcases Nat.eq_zero_or_pos img2.width with h0 | h0
    · rw [h0] at hi
      simp at hi
    · exact h0
  have hx : i % img2.width < img2.width := Nat.mod_lt _ hwpos
  have hy : i / img2.width < img2.height := (Nat.div_lt_iff_lt_mul hwpos).mpr hi
  exact hf _ _ hx hy

theorem DED_eq_D (u : Image) (d : Nat) (hd : d % 2 = 1)
    (hub : ∀ a, a < u.width → ∀ b, b < u.height → u.get_pixel a b ≤ WHITE) :
    ((u.dilate_or_erode (fullKernel d) false).dilate_or_erode (fullKernel d)
        true).dilate_or_erode (fullKernel d) false =
      u.dilate_or_erode (fullKernel d) false := by
  have hpoint : ∀ x y, x < u.width → y < u.height →
      ((u.dilate_or_erode (fullKernel d) false).dilate_or_erode (fullKernel d)
          true).get_min_or_max x y (fullKernel d) false =
        u.get_min_or_max x y (fullKernel d) false := by
    intro x y hx hy
    have hsp : (u.dilate_or_erode (fullKernel d) false).get_pixel x y =
        u.get_min_or_max x y (fullKernel d) false :=
      Image.get_mapPixels u _ hx hy
    apply Pixel.le_antisymm
    · rw [← hsp]
      apply dilate_erode_le (u.dilate_or_erode (fullKernel d) false) d hd x y hx hy
      intro a ha b hb
      have hg : (u.dilate_or_erode (fullKernel d) false).get_pixel a b =
          u.get_min_or_max a b (fullKernel d) false :=
        Image.get_mapPixels u _ ha hb
      rw [hg]
      exact black_le_gmmD u a b d
    · apply gmmD_le
      · exact black_le_gmmD _ x y d
      · intro yx hyx
        refine Pixel.le_trans ?_ (samp_le_gmmD _ x y d hyx)
        obtain ⟨hyy, hxx⟩ := mem_cellList.mp hyx
        simp only [Image.samp]
        have hEh : ((u.dilate_or_erode (fullKernel d) false).dilate_or_erode
            (fullKernel d) true).height = u.height := rfl
        have hEw : ((u.dilate_or_erode (fullKernel d) false).dilate_or_erode
            (fullKernel d) true).width = u.width := rfl
        by_cases hy' : ((y + yx.1 : Nat) : Int) - (((d - 1) / 2 : Nat) : Int) < 0 ∨
            (u.height : Int) ≤ ((y + yx.1 : Nat) : Int) - (((d - 1) / 2 : Nat) : Int)
        · have hy2 : ((y + yx.1 : Nat) : Int) - (((d - 1) / 2 : Nat) : Int) < 0 ∨
              (((u.dilate_or_erode (fullKernel d) false).dilate_or_erode
                (fullKernel d) true).height : Int) ≤
                ((y + yx.1 : Nat) : Int) - (((d - 1) / 2 : Nat) : Int) := by
            omega
          rw [if_pos hy', if_pos hy2]
          have hg : ((u.dilate_or_erode (fullKernel d) false).dilate_or_erode
              (fullKernel d) true).get_pixel x y =
              (u.dilate_or_erode (fullKernel d) false).get_min_or_max x y
                (fullKernel d) true :=
            Image.get_mapPixels (u.dilate_or_erode (fullKernel d) false) _ hx hy
          rw [hg]
          exact le_erode_dilate u d hd x y hx hy hub
        · have hy2 : ¬(((y + yx.1 : Nat) : Int) - (((d - 1) / 2 : Nat) : Int) < 0 ∨
              (((u.dilate_or_erode (fullKernel d) false).dilate_or_erode
                (fullKernel d) true).height : Int) ≤
                ((y + yx.1 : Nat) : Int) - (((d - 1) / 2 : Nat) : Int)) := by
            omega
          rw [if_neg hy', if_neg hy2]
          by_cases hx' : ((x + yx.2 : Nat) : Int) - (((d - 1) / 2 : Nat) : Int) < 0 ∨
              (u.width : Int) ≤ ((x + yx.2 : Nat) : Int) - (((d - 1) / 2 : Nat) : Int)
          · have hx2 : ((x + yx.2 : Nat) : Int) - (((d - 1) / 2 : Nat) : Int) < 0 ∨
                (((u.dilate_or_erode (fullKernel d) false).dilate_or_erode
                  (fullKernel d) true).width : Int) ≤
                  ((x + yx.2 : Nat) : Int) - (((d - 1) / 2 : Nat) : Int) := by
              omega
            rw [if_pos hx', if_pos hx2]
            have hg : ((u.dilate_or_erode (fullKernel d) false).dilate_or_erode
                (fullKernel d) true).get_pixel x y =
                (u.dilate_or_erode (fullKernel d) false).get_min_or_max x y
                  (fullKernel d) true :=
              Image.get_mapPixels (u.dilate_or_erode (fullKernel d) false) _ hx hy
            rw [hg]
            exact le_erode_dilate u d hd x y hx hy hub
          · have hx2 : ¬(((x + yx.2 : Nat) : Int) - (((d - 1) / 2 : Nat) : Int) < 0 ∨
                (((u.dilate_or_erode (fullKernel d) false).dilate_or_erode
                  (fullKernel d) true).width : Int) ≤
                  ((x + yx.2 : Nat) : Int) - (((d - 1) / 2 : Nat) : Int)) := by
              omega
            rw [if_neg hx', if_neg hx2]
            have ex : (((x + yx.2 : Nat) : Int) - (((d - 1) / 2 : Nat) : Int)).toNat =
                x + yx.2 - (d - 1) / 2 := by
              omega
            have ey : (((y + yx.1 : Nat) : Int) - (((d - 1) / 2 : Nat) : Int)).toNat =
                y + yx.1 - (d - 1) / 2 := by
              omega
            rw [ex, ey]
            have hqw : x + yx.2 - (d - 1) / 2 < u.width := by omega
            have hqh : y + yx.1 - (d - 1) / 2 < u.height := by omega
            have hg : ((u.dilate_or_erode (fullKernel d) false).dilate_or_erode
                (fullKernel d) true).get_pixel (x + yx.2 - (d - 1) / 2)
                  (y + yx.1 - (d - 1) / 2) =
                (u.dilate_or_erode (fullKernel d) false).get_min_or_max
                  (x + yx.2 - (d - 1) / 2) (y + yx.1 - (d - 1) / 2)
                  (fullKernel d) true :=
              Image.get_mapPixels (u.dilate_or_erode (fullKernel d) false) _ hqw hqh
            rw [hg]
            exact le_erode_dilate u d hd (x + yx.2 - (d - 1) / 2)
              (y + yx.1 - (d - 1) / 2) hqw hqh hub
  exact mapPixels_congr _ _ _ _ rfl rfl hpoint

theorem EDE_eq_E (v : Image) (d : Nat) (hd : d % 2 = 1)
    (hlb : ∀ a, a < v.width → ∀ b, b < v.height → BLACK ≤ v.get_pixel a b) :
    ((v.dilate_or_erode (fullKernel d) true).dilate_or_erode (fullKernel d)
        false).dilate_or_erode (fullKernel d) true =
      v.dilate_or_erode (fullKernel d) true := by
  have hpoint : ∀ x y, x < v.width → y < v.height →
      ((v.dilate_or_erode (fullKernel d) true).dilate_or_erode (fullKernel d)
          false).get_min_or_max x y (fullKernel d) true =
        v.get_min_or_max x y (fullKernel d) true := by
    intro x y hx hy
    have htp : (v.dilate_or_erode (fullKernel d) true).get_pixel x y =
        v.get_min_or_max x y (fullKernel d) true :=
      Image.get_mapPixels v _ hx hy
    apply Pixel.le_antisymm
    · apply le_gmmE
      · exact gmmE_le_white ((v.dilate_or_erode (fullKernel d) true).dilate_or_erode
          (fullKernel d) false) x y d
      · intro yx hyx
        refine Pixel.le_trans (gmmE_le_samp _ x y d hyx) ?_
        obtain ⟨hyy, hxx⟩ := mem_cellList.mp hyx
        simp only [Image.samp]
        have hDh : ((v.dilate_or_erode (fullKernel d) true).dilate_or_erode
            (fullKernel d) false).height = v.height := rfl
        have hDw : ((v.dilate_or_erode (fullKernel d) true).dilate_or_erode
            (fullKernel d) false).width = v.width := rfl
        by_cases hy' : ((y + yx.1 : Nat) : Int) - (((d - 1) / 2 : Nat) : Int) < 0 ∨
            (((v.dilate_or_erode (fullKernel d) true).dilate_or_erode
              (fullKernel d) false).height : Int) ≤
              ((y + yx.1 : Nat) : Int) - (((d - 1) / 2 : Nat) : Int)
        · have hy2 : ((y + yx.1 : Nat) : Int) - (((d - 1) / 2 : Nat) : Int) < 0 ∨
              (v.height : Int) ≤ ((y + yx.1 : Nat) : Int) -
                (((d - 1) / 2 : Nat) : Int) := by
            omega
          rw [if_pos hy', if_pos hy2]
          have hg : ((v.dilate_or_erode (fullKernel d) true).dilate_or_erode
              (fullKernel d) false).get_pixel x y =
              (v.dilate_or_erode (fullKernel d) true).get_min_or_max x y
                (fullKernel d) false :=
            Image.get_mapPixels (v.dilate_or_erode (fullKernel d) true) _ hx hy
          rw [hg]
          exact dilate_erode_le v d hd x y hx hy hlb
        · have hy2 : ¬(((y + yx.1 : Nat) : Int) - (((d - 1) / 2 : Nat) : Int) < 0 ∨
              (v.height : Int) ≤ ((y + yx.1 : Nat) : Int) -
                (((d - 1) / 2 : Nat) : Int)) := by
            omega
          rw [if_neg hy', if_neg hy2]
          by_cases hx' : ((x + yx.2 : Nat) : Int) - (((d - 1) / 2 : Nat) : Int) < 0 ∨
              (((v.dilate_or_erode (fullKernel d) true).dilate_or_erode
                (fullKernel d) false).width : Int) ≤
                ((x + yx.2 : Nat) : Int) - (((d - 1) / 2 : Nat) : Int)
          · have hx2 : ((x + yx.2 : Nat) : Int) - (((d - 1) / 2 : Nat) : Int) < 0 ∨
                (v.width : Int) ≤ ((x + yx.2 : Nat) : Int) -
                  (((d - 1) / 2 : Nat) : Int) := by
              omega
            rw [if_pos hx', if_pos hx2]
            have hg : ((v.dilate_or_erode (fullKernel d) true).dilate_or_erode
                (fullKernel d) false).get_pixel x y =
                (v.dilate_or_erode (fullKernel d) true).get_min_or_max x y
                  (fullKernel d) false :=
              Image.get_mapPixels (v.dilate_or_erode (fullKernel d) true) _ hx hy
            rw [hg]
            exact dilate_erode_le v d hd x y hx hy hlb
          · have hx2 : ¬(((x + yx.2 : Nat) : Int) - (((d - 1) / 2 : Nat) : Int) < 0 ∨
                (v.width : Int) ≤ ((x + yx.2 : Nat) : Int) -
                  (((d - 1) / 2 : Nat) : Int)) := by
              omega
            rw [if_neg hx', if_neg hx2]
            have ex : (((x + yx.2 : Nat) : Int) - (((d - 1) / 2 : Nat) : Int)).toNat =
                x + yx.2 - (d - 1) / 2 := by
              omega
            have ey : (((y + yx.1 : Nat) : Int) - (((d - 1) / 2 : Nat) : Int)).toNat =
                y + yx.1 - (d - 1) / 2 := by
              omega
            rw [ex, ey]
            have hqw : x + yx.2 - (d - 1) / 2 < v.width := by omega
            have hqh : y + yx.1 - (d - 1) / 2 < v.height := by omega
            have hg : ((v.dilate_or_erode (fullKernel d) true).dilate_or_erode
                (fullKernel d) false).get_pixel (x + yx.2 - (d - 1) / 2)
                  (y + yx.1 - (d - 1) / 2) =
                (v.dilate_or_erode (fullKernel d) true).get_min_or_max
                  (x + yx.2 - (d - 1) / 2) (y + yx.1 - (d - 1) / 2)
                  (fullKernel d) false :=
              Image.get_mapPixels (v.dilate_or_erode (fullKernel d) true) _ hqw hqh
            rw [hg]
            exact dilate_erode_le v d hd (x + yx.2 - (d - 1) / 2)
              (y + yx.1 - (d - 1) / 2) hqw hqh hlb
    · rw [← htp]
      apply le_erode_dilate (v.dilate_or_erode (fullKernel d) true) d hd x y hx hy
      intro a ha b hb
      have hg : (v.dilate_or_erode (fullKernel d) true).get_pixel a b =
          v.get_min_or_max a b (fullKernel d) true :=
        Image.get_mapPixels v _ ha hb
      rw [hg]
      exact gmmE_le_white v a b d
  exact mapPixels_congr _ _ _ _ rfl rfl hpoint

theorem open_idem_full (r : Image) (d : Nat) (hd : d % 2 = 1) :
    (((r.dilate_or_erode (fullKernel d) true).dilate_or_erode (fullKernel d)
        false).dilate_or_erode (fullKernel d) true).dilate_or_erode
        (fullKernel d) false =
      (r.dilate_or_erode (fullKernel d) true).dilate_or_erode
        (fullKernel d) false := by
  apply DED_eq_D (r.dilate_or_erode (fullKernel d) true) d hd
  intro a ha b hb
  have hg : (r.dilate_or_erode (fullKernel d) true).get_pixel a b =
      r.get_min_or_max a b (fullKernel d) true :=
    Image.get_mapPixels r _ ha hb
  rw [hg]
  exact gmmE_le_white r a b d

theorem close_idem_full (r : Image) (d : Nat) (hd : d % 2 = 1) :
    (((r.dilate_or_erode (fullKernel d) false).dilate_or_erode (fullKernel d)
        true).dilate_or_erode (fullKernel d) false).dilate_or_erode
        (fullKernel d) true =
      (r.dilate_or_erode (fullKernel d) false).dilate_or_erode
        (fullKernel d) true := by
  apply EDE_eq_E (r.dilate_or_erode (fullKernel d) false) d hd
  intro a ha b hb
  have hg : (r.dilate_or_erode (fullKernel d) false).get_pixel a b =
      r.get_min_or_max a b (fullKernel d) false :=
    Image.get_mapPixels r _ ha hb
  rw [hg]
  exact black_le_gmmD r a b d

/-- C5: `open` and `close` are idempotent: whenever `open r k` produces a
raster `o` (every odd kernel dimension does), applying `open` to `o` with
the same kernel returns `o` again, and likewise for `close` — for every
raster and every kernel. -/
theorem C5_open_close_idempotent (r : Image) (k : Kernel) :
    (∀ o, r.open' k = some o → o.open' k = some o) ∧
    (∀ o, r.close k = some o → o.close k = some o) := by
  constructor
  · intro o ho
    by_cases he : k.get_dimension % 2 = 0
    · simp [Image.open', Kernel.change_dimension, he] at ho
    · have hd : k.get_dimension % 2 = 1 := by omega
      simp only [Image.open', Kernel.change_dimension, if_neg he] at ho ⊢
      obtain rfl := Option.some.inj ho
      exact congrArg some (open_idem_full r k.get_dimension hd)
  · intro o ho
    by_cases he : k.get_dimension % 2 = 0
    · simp [Image.close, Kernel.change_dimension, he] at ho
    · have hd : k.get_dimension % 2 = 1 := by omega
      simp only [Image.close, Kernel.change_dimension, if_neg he] at ho ⊢
      obtain rfl := Option.some.inj ho
      exact congrArg some (close_idem_full r k.get_dimension hd)

theorem C5_open_close_idempotent_witness :
    (⟨[BLACK, WHITE], 2, 1⟩ : Image).open' (fullKernel 3) =
      some ((Image.erode ⟨[BLACK, WHITE], 2, 1⟩ (fullKernel 3)).dilate
        (fullKernel 3)) ∧
    ((Image.erode ⟨[BLACK, WHITE], 2, 1⟩ (fullKernel 3)).dilate
        (fullKernel 3)).open' (fullKernel 3) =
      some ((Image.erode ⟨[BLACK, WHITE], 2, 1⟩ (fullKernel 3)).dilate
        (fullKernel 3)) := by
  refine ⟨by decide, ?_⟩
  exact (C5_open_close_idempotent ⟨[BLACK, WHITE], 2, 1⟩ (fullKernel 3)).1
    ((Image.erode ⟨[BLACK, WHITE], 2, 1⟩ (fullKernel 3)).dilate (fullKernel 3))
    (by decide)

end Morphop
